import Mathlib

/-!
Verification development for the `poly` polymorphic type-inference core.

The repository's inference driver (`infer.go`) and the two instantiation
implementations (`instantiate.go`, `internal/typeutil/instantiate.go`) are
embedded as executable Lean functions over an explicit type-graph store.
The `types` and `ast` packages of the repository are not part of the given
sources; their data model and operations are modelled from the
specification (each such definition is marked `Modelled from the spec:`).
-/

/-- Modelled from the spec: type nodes (§3 data model).  Variables are
represented by an identifier into a store of variable states; rows map each
label to an ordered list of types (scoped labels).  `Recursive`/`Method`
nodes are outside the scope of this development; `nilTy` stands for Go's
nil `types.Type` value, which flows through some error paths. -/
inductive Ty where
  | unit : Ty
  | const (name : String) : Ty
  | size (n : Nat) : Ty
  | tvar (id : Nat) : Ty
  | app (constr : Ty) (params : List Ty) (underlying : Option Ty) : Ty
  | arrow (args : List Ty) (ret : Ty) : Ty
  | record (row : Ty) : Ty
  | variant (row : Ty) : Ty
  | rowEmpty : Ty
  | rowExtend (row : Ty) (labels : List (String × List Ty)) : Ty
  | nilTy : Ty

/-- Modelled from the spec: the mutable state of a type variable
(`Var { id, level, state }` with weak / size-restricted flags and instance
constraints; constraints are represented by numeric identities). -/
structure VarInfo where
  level : Nat
  link : Option Ty := none
  generic : Bool := false
  weak : Bool := false
  sizeRestricted : Bool := false
  constraints : List Nat := []

/-- Modelled from the spec: the `VarTracker` arena of variable states; a
variable's id is its index in the list. -/
abbrev Store := List VarInfo

/-- Modelled from the spec: read a variable's state from the store
(out-of-range ids yield an inert default). -/
def storeGet (s : Store) (id : Nat) : VarInfo :=
  s.getD id { level := 0 }

/-- Modelled from the spec: update a variable's state in place. -/
def storeSet (s : Store) (id : Nat) (v : VarInfo) : Store :=
  s.set id v

/-- Modelled from the spec: `VarTracker.New` allocates a fresh unbound,
monomorphic, unconstrained, non-weak variable at the given level, with a
monotonically increasing id. -/
def newVar (s : Store) (level : Nat) : Nat × Store :=
  (s.length, s ++ [{ level := level }])

mutual
/-- Modelled from the spec: a type is generic iff it contains a generic
variable (the `ContainsGenericVars` / `IsGeneric` flag of the source). -/
def Ty.isGeneric (s : Store) : Ty → Bool
  | .tvar i => (storeGet s i).generic
  | .app c params u => c.isGeneric s || tyListGeneric s params || tyOptGeneric s u
  | .arrow args ret => tyListGeneric s args || ret.isGeneric s
  | .record row => row.isGeneric s
  | .variant row => row.isGeneric s
  | .rowExtend row labels => row.isGeneric s || rowLabelsGeneric s labels
  | _ => false

/-- Genericity of a list of types. -/
def tyListGeneric (s : Store) : List Ty → Bool
  | [] => false
  | t :: ts => t.isGeneric s || tyListGeneric s ts

/-- Genericity of an optional type. -/
def tyOptGeneric (s : Store) : Option Ty → Bool
  | none => false
  | some t => t.isGeneric s

/-- Genericity of a row's label map. -/
def rowLabelsGeneric (s : Store) : List (String × List Ty) → Bool
  | [] => false
  | (_, ts) :: rest => tyListGeneric s ts || rowLabelsGeneric s rest
end

/-- The instantiation lookup table, memoizing fresh variables by source
variable id within a single instantiation call. -/
abbrev Memo := List (Nat × Ty)

/-- Whether a type is the `RowEmpty` node (the `row.(*types.RowEmpty)`
type test of the source). -/
def Ty.isRowEmptyNode : Ty → Bool
  | .rowEmpty => true
  | _ => false

namespace Poly

mutual
/-- Embeds `visitInstantiate` from `src/instantiate.go` (package `poly`).
The `types.Var` case allocates a fresh variable at `lvl`, copies the weak
flag and the instance constraints of the source variable (the
size-restricted flag is not copied by this implementation), and memoizes
the fresh variable by the source id. -/
def visitInstantiate (lvl : Nat) (t : Ty) (memo : Memo) (s : Store) : Ty × Memo × Store :=
  if ¬ t.isGeneric s then (t, memo, s) else
  match t with
  | .tvar id =>
    match List.lookup id memo with
    | some tv => (tv, memo, s)
    | none =>
      let src := storeGet s id
      let n := s.length
      let s := s ++ [{ level := lvl, weak := src.weak, constraints := src.constraints }]
      (.tvar n, (id, Ty.tvar n) :: memo, s)
  | .app c params u =>
    let (params', memo, s) := visitInstantiateList lvl params memo s
    let (u', memo, s) := visitInstantiateOpt lvl u memo s
    let (c', memo, s) := visitInstantiate lvl c memo s
    (.app c' params' u', memo, s)
  | .arrow args ret =>
    let (args', memo, s) := visitInstantiateList lvl args memo s
    let (ret', memo, s) := visitInstantiate lvl ret memo s
    (.arrow args' ret', memo, s)
  | .record row =>
    let (row', memo, s) := visitInstantiate lvl row memo s
    (.record row', memo, s)
  | .variant row =>
    let (row', memo, s) := visitInstantiate lvl row memo s
    (.variant row', memo, s)
  | .rowExtend row labels =>
    let (labels', memo, s) := visitInstantiateRow lvl labels memo s
    if row.isRowEmptyNode then (.rowExtend row labels', memo, s)
    else
      let (row', memo, s) := visitInstantiate lvl row memo s
      (.rowExtend row' labels', memo, s)
  | t => (t, memo, s)

/-- Instantiation over a list of types (in order). -/
def visitInstantiateList (lvl : Nat) (ts : List Ty) (memo : Memo) (s : Store) : List Ty × Memo × Store :=
  match ts with
  | [] => ([], memo, s)
  | t :: rest =>
    let (t', memo, s) := visitInstantiate lvl t memo s
    let (rest', memo, s) := visitInstantiateList lvl rest memo s
    (t' :: rest', memo, s)

/-- Instantiation of an optional underlying type. -/
def visitInstantiateOpt (lvl : Nat) (u : Option Ty) (memo : Memo) (s : Store) : Option Ty × Memo × Store :=
  match u with
  | none => (none, memo, s)
  | some t =>
    let (t', memo, s) := visitInstantiate lvl t memo s
    (some t', memo, s)

/-- Instantiation over a row's label map: every label's list is rebuilt
with each member instantiated (non-generic members are returned
unchanged by `visitInstantiate`). -/
def visitInstantiateRow (lvl : Nat) (labels : List (String × List Ty)) (memo : Memo) (s : Store) : List (String × List Ty) × Memo × Store :=
  match labels with
  | [] => ([], memo, s)
  | (lab, ts) :: rest =>
    let (ts', memo, s) := visitInstantiateList lvl ts memo s
    let (rest', memo, s) := visitInstantiateRow lvl rest memo s
    ((lab, ts') :: rest', memo, s)
end

/-- Embeds `instantiate` from `src/instantiate.go`: a non-generic type is
returned unchanged; otherwise the walk starts from cleared lookup
tables. -/
def instantiate (lvl : Nat) (t : Ty) (s : Store) : Ty × Store :=
  if ¬ t.isGeneric s then (t, s)
  else
    let (t', _, s') := visitInstantiate lvl t [] s
    (t', s')

end Poly

namespace Typeutil

mutual
/-- Embeds `visitInstantiate` from `src/internal/typeutil/instantiate.go`
(package `typeutil`).  The `types.Var` case additionally copies the
size-restricted flag of the source variable (`RestrictSizeVar`); the
`Source` back-references written by this implementation are not
modelled. -/
def visitInstantiate (lvl : Nat) (t : Ty) (memo : Memo) (s : Store) : Ty × Memo × Store :=
  if ¬ t.isGeneric s then (t, memo, s) else
  match t with
  | .tvar id =>
    match List.lookup id memo with
    | some tv => (tv, memo, s)
    | none =>
      let src := storeGet s id
      let n := s.length
      let s := s ++ [{ level := lvl, weak := src.weak, sizeRestricted := src.sizeRestricted, constraints := src.constraints }]
      (.tvar n, (id, Ty.tvar n) :: memo, s)
  | .app c params u =>
    let (params', memo, s) := visitInstantiateList lvl params memo s
    let (u', memo, s) := visitInstantiateOpt lvl u memo s
    let (c', memo, s) := visitInstantiate lvl c memo s
    (.app c' params' u', memo, s)
  | .arrow args ret =>
    let (args', memo, s) := visitInstantiateList lvl args memo s
    let (ret', memo, s) := visitInstantiate lvl ret memo s
    (.arrow args' ret', memo, s)
  | .record row =>
    let (row', memo, s) := visitInstantiate lvl row memo s
    (.record row', memo, s)
  | .variant row =>
    let (row', memo, s) := visitInstantiate lvl row memo s
    (.variant row', memo, s)
  | .rowExtend row labels =>
    let (labels', memo, s) := visitInstantiateRow lvl labels memo s
    if row.isRowEmptyNode then (.rowExtend row labels', memo, s)
    else
      let (row', memo, s) := visitInstantiate lvl row memo s
      (.rowExtend row' labels', memo, s)
  | t => (t, memo, s)

/-- Instantiation over a list of types (in order). -/
def visitInstantiateList (lvl : Nat) (ts : List Ty) (memo : Memo) (s : Store) : List Ty × Memo × Store :=
  match ts with
  | [] => ([], memo, s)
  | t :: rest =>
    let (t', memo, s) := visitInstantiate lvl t memo s
    let (rest', memo, s) := visitInstantiateList lvl rest memo s
    (t' :: rest', memo, s)

/-- Instantiation of an optional underlying type. -/
def visitInstantiateOpt (lvl : Nat) (u : Option Ty) (memo : Memo) (s : Store) : Option Ty × Memo × Store :=
  match u with
  | none => (none, memo, s)
  | some t =>
    let (t', memo, s) := visitInstantiate lvl t memo s
    (some t', memo, s)

/-- Per-element instantiation of a scoped-label list: only generic
members are rebuilt (mirroring `lb.Set(i, ...)` under `if t.IsGeneric()`). -/
def visitInstantiateListKeep (lvl : Nat) (ts : List Ty) (memo : Memo) (s : Store) : List Ty × Memo × Store :=
  match ts with
  | [] => ([], memo, s)
  | t :: rest =>
    if t.isGeneric s then
      let (t', memo, s) := visitInstantiate lvl t memo s
      let (rest', memo, s) := visitInstantiateListKeep lvl rest memo s
      (t' :: rest', memo, s)
    else
      let (rest', memo, s) := visitInstantiateListKeep lvl rest memo s
      (t :: rest', memo, s)

/-- Instantiation over a row's label map, with the source's fast paths:
a singleton list is rebuilt only when its member is generic; a longer
list is left untouched unless the `Range` scan finds every scanned
member generic (the scan stops at the first non-generic member). -/
def visitInstantiateRow (lvl : Nat) (labels : List (String × List Ty)) (memo : Memo) (s : Store) : List (String × List Ty) × Memo × Store :=
  match labels with
  | [] => ([], memo, s)
  | (lab, [t]) :: rest =>
    if t.isGeneric s then
      let (t', memo, s) := visitInstantiate lvl t memo s
      let (rest', memo, s) := visitInstantiateRow lvl rest memo s
      ((lab, [t']) :: rest', memo, s)
    else
      let (rest', memo, s) := visitInstantiateRow lvl rest memo s
      ((lab, [t]) :: rest', memo, s)
  | (lab, []) :: rest =>
    let (rest', memo, s) := visitInstantiateRow lvl rest memo s
    ((lab, []) :: rest', memo, s)
  | (lab, t1 :: t2 :: ts2) :: rest =>
    if (t1 :: t2 :: ts2).all (fun t => t.isGeneric s) then
      let (ts', memo, s) := visitInstantiateListKeep lvl (t1 :: t2 :: ts2) memo s
      let (rest', memo, s) := visitInstantiateRow lvl rest memo s
      ((lab, ts') :: rest', memo, s)
    else
      let (rest', memo, s) := visitInstantiateRow lvl rest memo s
      ((lab, t1 :: t2 :: ts2) :: rest', memo, s)
end

/-- Embeds `Instantiate` from `src/internal/typeutil/instantiate.go`: a
non-generic type is returned unchanged; otherwise the walk runs and the
lookup tables are cleared afterwards (each call therefore sees empty
tables). -/
def Instantiate (lvl : Nat) (t : Ty) (s : Store) : Ty × Store :=
  if ¬ t.isGeneric s then (t, s)
  else
    let (t', _, s') := visitInstantiate lvl t [] s
    (t', s')

end Typeutil

/-! ### Relating the two instantiation implementations -/

/-- Erase the size-restriction flag of a variable state (the one flag the
package-level `instantiate` does not copy). -/
def clearSizeFlag (v : VarInfo) : VarInfo := { v with sizeRestricted := false }

/-- Two stores agree up to size-restriction flags. -/
def StoreEqUpToSize (s1 s2 : Store) : Prop :=
  s1.map clearSizeFlag = s2.map clearSizeFlag

theorem getD_map_clearSizeFlag (l : List VarInfo) (i : Nat) :
    (l.map clearSizeFlag).getD i { level := 0 } = clearSizeFlag (l.getD i { level := 0 }) := by
  rw [List.getD_eq_getElem?_getD, List.getD_eq_getElem?_getD, List.getElem?_map]
  cases l[i]? with
  | none => rfl
  | some v => rfl

theorem storeGet_clearSizeFlag {s1 s2 : Store} (h : StoreEqUpToSize s1 s2) (i : Nat) :
    clearSizeFlag (storeGet s1 i) = clearSizeFlag (storeGet s2 i) := by
  unfold storeGet
  rw [← getD_map_clearSizeFlag, ← getD_map_clearSizeFlag, h]

theorem storeGet_generic_eq {s1 s2 : Store} (h : StoreEqUpToSize s1 s2) (i : Nat) :
    (storeGet s1 i).generic = (storeGet s2 i).generic := by
  have h2 := congrArg VarInfo.generic (storeGet_clearSizeFlag h i)
  simpa [clearSizeFlag] using h2

theorem storeGet_weak_eq {s1 s2 : Store} (h : StoreEqUpToSize s1 s2) (i : Nat) :
    (storeGet s1 i).weak = (storeGet s2 i).weak := by
  have h2 := congrArg VarInfo.weak (storeGet_clearSizeFlag h i)
  simpa [clearSizeFlag] using h2

theorem storeGet_constraints_eq {s1 s2 : Store} (h : StoreEqUpToSize s1 s2) (i : Nat) :
    (storeGet s1 i).constraints = (storeGet s2 i).constraints := by
  have h2 := congrArg VarInfo.constraints (storeGet_clearSizeFlag h i)
  simpa [clearSizeFlag] using h2

theorem storeLen_eq {s1 s2 : Store} (h : StoreEqUpToSize s1 s2) :
    s1.length = s2.length := by
  have := congrArg List.length h
  simpa using this

theorem ty_sizeOf_pos (t : Ty) : 0 < sizeOf t := by
  cases t <;> simp_arith

/-- Genericity only reads the `generic` flags, so it is invariant under
erasing size flags. -/
theorem isGeneric_congr_aux {s1 s2 : Store} (h : StoreEqUpToSize s1 s2) :
    ∀ n : Nat,
      (∀ t : Ty, sizeOf t ≤ n → t.isGeneric s1 = t.isGeneric s2) ∧
      (∀ ts : List Ty, sizeOf ts ≤ n → tyListGeneric s1 ts = tyListGeneric s2 ts) ∧
      (∀ u : Option Ty, sizeOf u ≤ n → tyOptGeneric s1 u = tyOptGeneric s2 u) ∧
      (∀ ls : List (String × List Ty), sizeOf ls ≤ n → rowLabelsGeneric s1 ls = rowLabelsGeneric s2 ls) := by
  intro n
  induction n with
  | zero =>
    refine ⟨fun t ht => absurd ht (by have := ty_sizeOf_pos t; omega), ?_, ?_, ?_⟩
    · intro ts hts
      cases ts with
      | nil => rfl
      | cons a l => simp at hts
    · intro u hu
      cases u with
      | none => rfl
      | some t => simp at hu
    · intro ls hls
      cases ls with
      | nil => rfl
      | cons a l => simp at hls
  | succ n ih =>
    obtain ⟨ihT, ihL, ihO, ihR⟩ := ih
    refine ⟨?_, ?_, ?_, ?_⟩
    · intro t ht
      cases t with
      | tvar i => simp [Ty.isGeneric, storeGet_generic_eq h]
      | app c params u =>
        simp at ht
        simp [Ty.isGeneric, ihT c (by omega), ihL params (by omega), ihO u (by omega)]
      | arrow args ret =>
        simp at ht
        simp [Ty.isGeneric, ihL args (by omega), ihT ret (by omega)]
      | record row => simp at ht; simp [Ty.isGeneric, ihT row (by omega)]
      | variant row => simp at ht; simp [Ty.isGeneric, ihT row (by omega)]
      | rowExtend row labels =>
        simp at ht
        simp [Ty.isGeneric, ihT row (by omega), ihR labels (by omega)]
      | unit => rfl
      | const nm => rfl
      | size k => rfl
      | rowEmpty => rfl
      | nilTy => rfl
    · intro ts hts
      cases ts with
      | nil => rfl
      | cons a l =>
        simp at hts
        simp [tyListGeneric, ihT a (by omega), ihL l (by omega)]
    · intro u hu
      cases u with
      | none => rfl
      | some t => simp at hu; simp [tyOptGeneric, ihT t (by omega)]
    · intro ls hls
      cases ls with
      | nil => rfl
      | cons a l =>
        obtain ⟨lab, ts⟩ := a
        simp at hls
        simp [rowLabelsGeneric, ihL ts (by omega), ihR l (by omega)]

theorem isGeneric_congr {s1 s2 : Store} (h : StoreEqUpToSize s1 s2) (t : Ty) :
    t.isGeneric s1 = t.isGeneric s2 :=
  (isGeneric_congr_aux h (sizeOf t)).1 t (Nat.le_refl _)

theorem tyListGeneric_congr {s1 s2 : Store} (h : StoreEqUpToSize s1 s2) (ts : List Ty) :
    tyListGeneric s1 ts = tyListGeneric s2 ts :=
  (isGeneric_congr_aux h (sizeOf ts)).2.1 ts (Nat.le_refl _)

mutual
/-- Whether a type contains no scoped labels: every row-extension label in
it carries exactly one type.  (On label lists of other lengths that mix
generic and non-generic members the two implementations genuinely
diverge: the typeutil fast path skips such lists entirely.) -/
def noScopedTy : Ty → Bool
  | .app c params u => noScopedTy c && noScopedList params && noScopedOpt u
  | .arrow args ret => noScopedList args && noScopedTy ret
  | .record row => noScopedTy row
  | .variant row => noScopedTy row
  | .rowExtend row labels => noScopedTy row && noScopedRow labels
  | _ => true

/-- `noScopedTy` over a list of types. -/
def noScopedList : List Ty → Bool
  | [] => true
  | t :: ts => noScopedTy t && noScopedList ts

/-- `noScopedTy` over an optional type. -/
def noScopedOpt : Option Ty → Bool
  | none => true
  | some t => noScopedTy t

/-- `noScopedTy` over a row's label map. -/
def noScopedRow : List (String × List Ty) → Bool
  | [] => true
  | (_, [t]) :: rest => noScopedTy t && noScopedRow rest
  | _ => false
end

theorem poly_visitInstantiate_nongeneric {t : Ty} {s : Store} (h : t.isGeneric s = false)
    (lvl : Nat) (memo : Memo) : Poly.visitInstantiate lvl t memo s = (t, memo, s) := by
  cases t <;> simp [Poly.visitInstantiate, h]

theorem typeutil_visitInstantiate_nongeneric {t : Ty} {s : Store} (h : t.isGeneric s = false)
    (lvl : Nat) (memo : Memo) : Typeutil.visitInstantiate lvl t memo s = (t, memo, s) := by
  cases t <;> simp [Typeutil.visitInstantiate, h]

/-- The two `visitInstantiate` walks agree step for step — same returned
type and memo table, stores equal up to size flags — on types without
scoped labels, whenever they start from stores equal up to size flags. -/
theorem visitInstantiate_agree_aux :
    ∀ n : Nat,
      (∀ t : Ty, sizeOf t ≤ n → ∀ lvl memo s1 s2, StoreEqUpToSize s1 s2 → noScopedTy t = true →
        (Poly.visitInstantiate lvl t memo s1).1 = (Typeutil.visitInstantiate lvl t memo s2).1 ∧
        (Poly.visitInstantiate lvl t memo s1).2.1 = (Typeutil.visitInstantiate lvl t memo s2).2.1 ∧
        StoreEqUpToSize (Poly.visitInstantiate lvl t memo s1).2.2 (Typeutil.visitInstantiate lvl t memo s2).2.2) ∧
      (∀ ts : List Ty, sizeOf ts ≤ n → ∀ lvl memo s1 s2, StoreEqUpToSize s1 s2 → noScopedList ts = true →
        (Poly.visitInstantiateList lvl ts memo s1).1 = (Typeutil.visitInstantiateList lvl ts memo s2).1 ∧
        (Poly.visitInstantiateList lvl ts memo s1).2.1 = (Typeutil.visitInstantiateList lvl ts memo s2).2.1 ∧
        StoreEqUpToSize (Poly.visitInstantiateList lvl ts memo s1).2.2 (Typeutil.visitInstantiateList lvl ts memo s2).2.2) ∧
      (∀ u : Option Ty, sizeOf u ≤ n → ∀ lvl memo s1 s2, StoreEqUpToSize s1 s2 → noScopedOpt u = true →
        (Poly.visitInstantiateOpt lvl u memo s1).1 = (Typeutil.visitInstantiateOpt lvl u memo s2).1 ∧
        (Poly.visitInstantiateOpt lvl u memo s1).2.1 = (Typeutil.visitInstantiateOpt lvl u memo s2).2.1 ∧
        StoreEqUpToSize (Poly.visitInstantiateOpt lvl u memo s1).2.2 (Typeutil.visitInstantiateOpt lvl u memo s2).2.2) ∧
      (∀ ls : List (String × List Ty), sizeOf ls ≤ n → ∀ lvl memo s1 s2, StoreEqUpToSize s1 s2 → noScopedRow ls = true →
        (Poly.visitInstantiateRow lvl ls memo s1).1 = (Typeutil.visitInstantiateRow lvl ls memo s2).1 ∧
        (Poly.visitInstantiateRow lvl ls memo s1).2.1 = (Typeutil.visitInstantiateRow lvl ls memo s2).2.1 ∧
        StoreEqUpToSize (Poly.visitInstantiateRow lvl ls memo s1).2.2 (Typeutil.visitInstantiateRow lvl ls memo s2).2.2) := by
  intro n
  induction n with
  | zero =>
    refine ⟨fun t ht => absurd ht (by have := ty_sizeOf_pos t; omega), ?_, ?_, ?_⟩
    · intro ts hts
      cases ts with
      | nil => intro lvl memo s1 s2 hs _; exact ⟨rfl, rfl, hs⟩
      | cons a l => simp at hts
    · intro u hu
      cases u with
      | none => intro lvl memo s1 s2 hs _; exact ⟨rfl, rfl, hs⟩
      | some t => simp at hu
    · intro ls hls
      cases ls with
      | nil => intro lvl memo s1 s2 hs _; exact ⟨rfl, rfl, hs⟩
      | cons a l => simp at hls
  | succ n ih =>
    obtain ⟨ihT, ihL, ihO, ihR⟩ := ih
    refine ⟨?_, ?_, ?_, ?_⟩
    · -- single type
      intro t ht lvl memo s1 s2 hs hns
      have hg := isGeneric_congr hs t
      by_cases hgen : t.isGeneric s1 = true
      case neg =>
        have hgen' : t.isGeneric s1 = false := by
          cases hx : t.isGeneric s1 <;> simp_all
        have hgen2 : t.isGeneric s2 = false := by rw [← hg]; exact hgen'
        cases t <;>
          simp [Poly.visitInstantiate, Typeutil.visitInstantiate, hgen', hgen2] <;>
          exact hs
      case pos =>
        have hgen2 : t.isGeneric s2 = true := by rw [← hg]; exact hgen
        cases t with
        | unit => simp [Ty.isGeneric] at hgen
        | const nm => simp [Ty.isGeneric] at hgen
        | size k => simp [Ty.isGeneric] at hgen
        | rowEmpty => simp [Ty.isGeneric] at hgen
        | nilTy => simp [Ty.isGeneric] at hgen
        | tvar id =>
          cases hmemo : List.lookup id memo with
          | some tv =>
            simp [Poly.visitInstantiate, Typeutil.visitInstantiate, hgen, hgen2, hmemo]
            exact hs
          | none =>
            have hlen := storeLen_eq hs
            have hweak := storeGet_weak_eq hs id
            have hcons := storeGet_constraints_eq hs id
            refine ⟨?_, ?_, ?_⟩
            · simp [Poly.visitInstantiate, Typeutil.visitInstantiate, hgen, hgen2, hmemo, hlen]
            · simp [Poly.visitInstantiate, Typeutil.visitInstantiate, hgen, hgen2, hmemo, hlen]
            · simp [Poly.visitInstantiate, Typeutil.visitInstantiate, hgen, hgen2, hmemo,
                StoreEqUpToSize, List.map_append, clearSizeFlag, hweak, hcons, hlen]
              exact hs
        | app c params u =>
          simp at ht
          simp [noScopedTy] at hns
          obtain ⟨⟨hnc, hnp⟩, hnu⟩ := hns
          obtain ⟨e1, e2, e3⟩ := ihL params (by omega) lvl memo s1 s2 hs hnp
          rcases hP1 : Poly.visitInstantiateList lvl params memo s1 with ⟨pa, pm, ps⟩
          rcases hT1 : Typeutil.visitInstantiateList lvl params memo s2 with ⟨ta, tm, tss⟩
          rw [hP1, hT1] at e1 e2 e3
          simp at e1 e2 e3
          subst e1; subst e2
          obtain ⟨f1, f2, f3⟩ := ihO u (by omega) lvl pm ps tss e3 hnu
          rcases hP2 : Poly.visitInstantiateOpt lvl u pm ps with ⟨pu, pm2, ps2⟩
          rcases hT2 : Typeutil.visitInstantiateOpt lvl u pm tss with ⟨tu, tm2, ts2⟩
          rw [hP2, hT2] at f1 f2 f3
          simp at f1 f2 f3
          subst f1; subst f2
          obtain ⟨g1, g2, g3⟩ := ihT c (by omega) lvl pm2 ps2 ts2 f3 hnc
          rcases hP3 : Poly.visitInstantiate lvl c pm2 ps2 with ⟨pc, pm3, ps3⟩
          rcases hT3 : Typeutil.visitInstantiate lvl c pm2 ts2 with ⟨tc, tm3, ts3⟩
          rw [hP3, hT3] at g1 g2 g3
          simp at g1 g2 g3
          subst g1; subst g2
          simp [Poly.visitInstantiate, Typeutil.visitInstantiate, hgen, hgen2, hP1, hT1, hP2, hT2, hP3, hT3]
          exact g3
        | arrow args ret =>
          simp at ht
          simp [noScopedTy] at hns
          obtain ⟨hna, hnr⟩ := hns
          obtain ⟨e1, e2, e3⟩ := ihL args (by omega) lvl memo s1 s2 hs hna
          rcases hP1 : Poly.visitInstantiateList lvl args memo s1 with ⟨pa, pm, ps⟩
          rcases hT1 : Typeutil.visitInstantiateList lvl args memo s2 with ⟨ta, tm, tss⟩
          rw [hP1, hT1] at e1 e2 e3
          simp at e1 e2 e3
          subst e1; subst e2
          obtain ⟨f1, f2, f3⟩ := ihT ret (by omega) lvl pm ps tss e3 hnr
          rcases hP2 : Poly.visitInstantiate lvl ret pm ps with ⟨pr, pm2, ps2⟩
          rcases hT2 : Typeutil.visitInstantiate lvl ret pm tss with ⟨tr, tm2, ts2⟩
          rw [hP2, hT2] at f1 f2 f3
          simp at f1 f2 f3
          subst f1; subst f2
          simp [Poly.visitInstantiate, Typeutil.visitInstantiate, hgen, hgen2, hP1, hT1, hP2, hT2]
          exact f3
        | record row =>
          simp at ht
          simp [noScopedTy] at hns
          obtain ⟨e1, e2, e3⟩ := ihT row (by omega) lvl memo s1 s2 hs hns
          rcases hP1 : Poly.visitInstantiate lvl row memo s1 with ⟨pr, pm, ps⟩
          rcases hT1 : Typeutil.visitInstantiate lvl row memo s2 with ⟨tr, tm, tss⟩
          rw [hP1, hT1] at e1 e2 e3
          simp at e1 e2 e3
          subst e1; subst e2
          simp [Poly.visitInstantiate, Typeutil.visitInstantiate, hgen, hgen2, hP1, hT1]
          exact e3
        | variant row =>
          simp at ht
          simp [noScopedTy] at hns
          obtain ⟨e1, e2, e3⟩ := ihT row (by omega) lvl memo s1 s2 hs hns
          rcases hP1 : Poly.visitInstantiate lvl row memo s1 with ⟨pr, pm, ps⟩
          rcases hT1 : Typeutil.visitInstantiate lvl row memo s2 with ⟨tr, tm, tss⟩
          rw [hP1, hT1] at e1 e2 e3
          simp at e1 e2 e3
          subst e1; subst e2
          simp [Poly.visitInstantiate, Typeutil.visitInstantiate, hgen, hgen2, hP1, hT1]
          exact e3
        | rowExtend row labels =>
          simp at ht
          simp [noScopedTy] at hns
          obtain ⟨hnr, hnl⟩ := hns
          obtain ⟨e1, e2, e3⟩ := ihR labels (by omega) lvl memo s1 s2 hs hnl
          rcases hP1 : Poly.visitInstantiateRow lvl labels memo s1 with ⟨pl, pm, ps⟩
          rcases hT1 : Typeutil.visitInstantiateRow lvl labels memo s2 with ⟨tl, tm, tss⟩
          rw [hP1, hT1] at e1 e2 e3
          simp at e1 e2 e3
          subst e1; subst e2
          by_cases hre : row.isRowEmptyNode = true
          · simp [Poly.visitInstantiate, Typeutil.visitInstantiate, hgen, hgen2, hP1, hT1, hre]
            exact e3
          · have hre' : row.isRowEmptyNode = false := by
              cases hx : row.isRowEmptyNode <;> simp_all
            obtain ⟨f1, f2, f3⟩ := ihT row (by omega) lvl pm ps tss e3 hnr
            rcases hP2 : Poly.visitInstantiate lvl row pm ps with ⟨pr, pm2, ps2⟩
            rcases hT2 : Typeutil.visitInstantiate lvl row pm tss with ⟨tr, tm2, ts2⟩
            rw [hP2, hT2] at f1 f2 f3
            simp at f1 f2 f3
            subst f1; subst f2
            simp [Poly.visitInstantiate, Typeutil.visitInstantiate, hgen, hgen2, hP1, hT1, hre', hP2, hT2]
            exact f3
    · -- list of types
      intro ts hts lvl memo s1 s2 hs hns
      cases ts with
      | nil => exact ⟨rfl, rfl, hs⟩
      | cons a l =>
        simp at hts
        simp [noScopedList] at hns
        obtain ⟨hna, hnl⟩ := hns
        obtain ⟨e1, e2, e3⟩ := ihT a (by omega) lvl memo s1 s2 hs hna
        rcases hP1 : Poly.visitInstantiate lvl a memo s1 with ⟨pa, pm, ps⟩
        rcases hT1 : Typeutil.visitInstantiate lvl a memo s2 with ⟨ta, tm, tss⟩
        rw [hP1, hT1] at e1 e2 e3
        simp at e1 e2 e3
        subst e1; subst e2
        obtain ⟨f1, f2, f3⟩ := ihL l (by omega) lvl pm ps tss e3 hnl
        rcases hP2 : Poly.visitInstantiateList lvl l pm ps with ⟨pl, pm2, ps2⟩
        rcases hT2 : Typeutil.visitInstantiateList lvl l pm tss with ⟨tl, tm2, ts2⟩
        rw [hP2, hT2] at f1 f2 f3
        simp at f1 f2 f3
        subst f1; subst f2
        simp [Poly.visitInstantiateList, Typeutil.visitInstantiateList, hP1, hT1, hP2, hT2]
        exact f3
    · -- optional type
      intro u hu lvl memo s1 s2 hs hns
      cases u with
      | none => exact ⟨rfl, rfl, hs⟩
      | some t =>
        simp at hu
        simp [noScopedOpt] at hns
        obtain ⟨e1, e2, e3⟩ := ihT t (by omega) lvl memo s1 s2 hs hns
        rcases hP1 : Poly.visitInstantiate lvl t memo s1 with ⟨pa, pm, ps⟩
        rcases hT1 : Typeutil.visitInstantiate lvl t memo s2 with ⟨ta, tm, tss⟩
        rw [hP1, hT1] at e1 e2 e3
        simp at e1 e2 e3
        subst e1; subst e2
        simp [Poly.visitInstantiateOpt, Typeutil.visitInstantiateOpt, hP1, hT1]
        exact e3
    · -- row label map
      intro ls hls lvl memo s1 s2 hs hns
      cases ls with
      | nil => exact ⟨rfl, rfl, hs⟩
      | cons a rest =>
        obtain ⟨lab, ts⟩ := a
        cases ts with
        | nil => simp [noScopedRow] at hns
        | cons t0 ts0 =>
          cases ts0 with
          | cons t1 ts1 => simp [noScopedRow] at hns
          | nil =>
            simp at hls
            simp [noScopedRow] at hns
            obtain ⟨hnt, hnrest⟩ := hns
            have hg := isGeneric_congr hs t0
            by_cases hgen : t0.isGeneric s1 = true
            · have hgen2 : t0.isGeneric s2 = true := by rw [← hg]; exact hgen
              obtain ⟨e1, e2, e3⟩ := ihT t0 (by omega) lvl memo s1 s2 hs hnt
              rcases hP1 : Poly.visitInstantiate lvl t0 memo s1 with ⟨pa, pm, ps⟩
              rcases hT1 : Typeutil.visitInstantiate lvl t0 memo s2 with ⟨ta, tm, tss⟩
              rw [hP1, hT1] at e1 e2 e3
              simp at e1 e2 e3
              subst e1; subst e2
              obtain ⟨f1, f2, f3⟩ := ihR rest (by omega) lvl pm ps tss e3 hnrest
              rcases hP2 : Poly.visitInstantiateRow lvl rest pm ps with ⟨pl, pm2, ps2⟩
              rcases hT2 : Typeutil.visitInstantiateRow lvl rest pm tss with ⟨tl, tm2, ts2⟩
              rw [hP2, hT2] at f1 f2 f3
              simp at f1 f2 f3
              subst f1; subst f2
              simp [Poly.visitInstantiateRow, Typeutil.visitInstantiateRow,
                Poly.visitInstantiateList, hgen, hgen2, hP1, hT1, hP2, hT2]
              exact f3
            · have hgen1 : t0.isGeneric s1 = false := by
                cases hx : t0.isGeneric s1 <;> simp_all
              have hgen2 : t0.isGeneric s2 = false := by rw [← hg]; exact hgen1
              obtain ⟨f1, f2, f3⟩ := ihR rest (by omega) lvl memo s1 s2 hs hnrest
              rcases hP2 : Poly.visitInstantiateRow lvl rest memo s1 with ⟨pl, pm2, ps2⟩
              rcases hT2 : Typeutil.visitInstantiateRow lvl rest memo s2 with ⟨tl, tm2, ts2⟩
              rw [hP2, hT2] at f1 f2 f3
              simp at f1 f2 f3
              subst f1; subst f2
              have hP0 := poly_visitInstantiate_nongeneric hgen1 lvl memo
              simp [Poly.visitInstantiateRow, Typeutil.visitInstantiateRow,
                Poly.visitInstantiateList, hP0, hgen1, hgen2, hP2, hT2]
              exact f3

theorem storeGet_append_lt {s : Store} {id : Nat} (h : id < s.length) (l : Store) :
    storeGet (s ++ l) id = storeGet s id := by
  unfold storeGet
  rw [List.getD_eq_getElem?_getD, List.getD_eq_getElem?_getD, List.getElem?_append_left h]

/-! ### Claim C3 -/

/-- A store holding a single generic, weak, size-restricted variable with
one instance constraint: the input on which the two implementations
disagree. -/
def c3Store : Store :=
  [{ level := 1, generic := true, weak := true, sizeRestricted := true, constraints := [5] }]

/-- C3 counterexample: instantiating the generic size-restricted variable
`0` at level 0, both implementations allocate the fresh variable `1` and
preserve the weak flag, but the package-level `instantiate` leaves the
fresh variable's size-restricted flag cleared while `typeutil.Instantiate`
preserves it — the flags on the fresh variable are not identical, so the
claimed equivalence fails. -/
theorem C3_counterexample :
    (Poly.instantiate 0 (.tvar 0) c3Store).1 = .tvar 1 ∧
    (Typeutil.Instantiate 0 (.tvar 0) c3Store).1 = .tvar 1 ∧
    (storeGet (Poly.instantiate 0 (.tvar 0) c3Store).2 1).weak = true ∧
    (storeGet (Typeutil.Instantiate 0 (.tvar 0) c3Store).2 1).weak = true ∧
    (storeGet (Poly.instantiate 0 (.tvar 0) c3Store).2 1).sizeRestricted = false ∧
    (storeGet (Typeutil.Instantiate 0 (.tvar 0) c3Store).2 1).sizeRestricted = true :=
  ⟨rfl, rfl, rfl, rfl, rfl, rfl⟩

/-- C3 (amended): for every level and type without scoped labels, the two
instantiation implementations return the same type and stores that agree
up to the size-restriction flags of variables: weak flags and instance
constraints of every fresh variable coincide, and only the
size-restriction flag (dropped by the package-level implementation, kept
by typeutil) may differ.  (On scoped-label lists mixing generic and
non-generic entries the typeutil fast path skips instantiation entirely,
so equivalence is scoped to singleton label lists.) -/
theorem C3_instantiate_agree_up_to_size_flags (lvl : Nat) (t : Ty) (s1 s2 : Store)
    (hs : StoreEqUpToSize s1 s2) (hns : noScopedTy t = true) :
    (Poly.instantiate lvl t s1).1 = (Typeutil.Instantiate lvl t s2).1 ∧
    StoreEqUpToSize (Poly.instantiate lvl t s1).2 (Typeutil.Instantiate lvl t s2).2 := by
  have hg := isGeneric_congr hs t
  by_cases hgen : t.isGeneric s1 = true
  · have hgen2 : t.isGeneric s2 = true := by rw [← hg]; exact hgen
    obtain ⟨e1, _, e3⟩ := (visitInstantiate_agree_aux (sizeOf t)).1 t (Nat.le_refl _) lvl [] s1 s2 hs hns
    rcases hP : Poly.visitInstantiate lvl t [] s1 with ⟨pa, pm, ps⟩
    rcases hT : Typeutil.visitInstantiate lvl t [] s2 with ⟨ta, tm, tss⟩
    rw [hP, hT] at e1 e3
    simp at e1 e3
    subst e1
    unfold Poly.instantiate Typeutil.Instantiate
    simp [hgen, hgen2, hP, hT]
    exact e3
  · have hgen1 : t.isGeneric s1 = false := by
      cases hx : t.isGeneric s1 <;> simp_all
    have hgen2 : t.isGeneric s2 = false := by rw [← hg]; exact hgen1
    unfold Poly.instantiate Typeutil.Instantiate
    simp [hgen1, hgen2]
    exact hs

/-- Witness store for C3's amended theorem: a generic weak variable. -/
def c3wStore : Store := [{ level := 1, generic := true, weak := true }]

theorem C3_witness :
    StoreEqUpToSize c3wStore c3wStore ∧ noScopedTy (.tvar 0) = true ∧
    ((Poly.instantiate 0 (.tvar 0) c3wStore).1 = (Typeutil.Instantiate 0 (.tvar 0) c3wStore).1 ∧
     StoreEqUpToSize (Poly.instantiate 0 (.tvar 0) c3wStore).2 (Typeutil.Instantiate 0 (.tvar 0) c3wStore).2) :=
  ⟨rfl, rfl, C3_instantiate_agree_up_to_size_flags 0 (.tvar 0) c3wStore c3wStore rfl rfl⟩

/-! ### Claim C4 -/

/-- C4: `typeutil.Instantiate(level, t)` returns `t` unchanged (and
allocates nothing) when `t` is non-generic; a generic variable is replaced
by a fresh unbound variable at `level` whose weak and size-restricted
flags are preserved and whose instance constraints are copied; and the
replacement is memoized by the source variable's id within the call, so
two occurrences of the same generic variable map to the same single fresh
variable. -/
theorem C4_Instantiate_correct (lvl : Nat) (t : Ty) (s : Store) (id : Nat) :
    (t.isGeneric s = false → Typeutil.Instantiate lvl t s = (t, s)) ∧
    ((storeGet s id).generic = true →
      Typeutil.Instantiate lvl (.tvar id) s =
        (.tvar s.length,
         s ++ [{ level := lvl, weak := (storeGet s id).weak,
                 sizeRestricted := (storeGet s id).sizeRestricted,
                 constraints := (storeGet s id).constraints }]) ∧
      Typeutil.Instantiate lvl (.arrow [.tvar id, .tvar id] .unit) s =
        (.arrow [.tvar s.length, .tvar s.length] .unit,
         s ++ [{ level := lvl, weak := (storeGet s id).weak,
                 sizeRestricted := (storeGet s id).sizeRestricted,
                 constraints := (storeGet s id).constraints }])) := by
  constructor
  · intro h
    unfold Typeutil.Instantiate
    simp [h]
  · intro hgen
    have hid : id < s.length := by
      by_contra hge
      have hnone : s[id]? = none := by
        rw [List.getElem?_eq_none]
        omega
      have : storeGet s id = { level := 0 } := by
        unfold storeGet
        rw [List.getD_eq_getElem?_getD, hnone]
        rfl
      rw [this] at hgen
      simp at hgen
    have happ := storeGet_append_lt hid
      [{ level := lvl, weak := (storeGet s id).weak,
         sizeRestricted := (storeGet s id).sizeRestricted,
         constraints := (storeGet s id).constraints }]
    constructor
    · unfold Typeutil.Instantiate Typeutil.visitInstantiate
      simp [Ty.isGeneric, hgen]
    · unfold Typeutil.Instantiate
      simp only [Ty.isGeneric, tyListGeneric, tyOptGeneric, hgen]
      simp only [Typeutil.visitInstantiate, Typeutil.visitInstantiateList,
        Ty.isGeneric, tyListGeneric, tyOptGeneric, hgen, happ]
      simp [List.lookup, happ, hgen]

theorem C4_witness :
    (Ty.const "int").isGeneric c3Store = false ∧
    (storeGet c3Store 0).generic = true ∧
    (Typeutil.Instantiate 3 (.const "int") c3Store = (.const "int", c3Store) ∧
     Typeutil.Instantiate 3 (.tvar 0) c3Store =
       (.tvar 1, c3Store ++ [{ level := 3, weak := true, sizeRestricted := true, constraints := [5] }]) ∧
     Typeutil.Instantiate 3 (.arrow [.tvar 0, .tvar 0] .unit) c3Store =
       (.arrow [.tvar 1, .tvar 1] .unit,
        c3Store ++ [{ level := 3, weak := true, sizeRestricted := true, constraints := [5] }])) :=
  ⟨rfl, rfl, (C4_Instantiate_correct 3 (.const "int") c3Store 0).1 rfl,
   ((C4_Instantiate_correct 3 (.tvar 0) c3Store 0).2 rfl).1,
   ((C4_Instantiate_correct 3 (.tvar 0) c3Store 0).2 rfl).2⟩

/-! ## Environment, unifier and generalization (spec-modelled collaborators) -/

/-- Whether a type is Go's nil `types.Type`. -/
def Ty.isNil : Ty → Bool
  | .nilTy => true
  | _ => false

/-- A rough `TypeName` for error messages. -/
def tyName : Ty → String
  | .unit => "unit"
  | .const n => n
  | .size _ => "size"
  | .tvar _ => "type variable"
  | .app _ _ _ => "type application"
  | .arrow _ _ => "function"
  | .record _ => "record"
  | .variant _ => "variant"
  | .rowEmpty => "empty row"
  | .rowExtend _ _ => "row extension"
  | .nilTy => "nil"

/-- Modelled from the spec: the reference type constructor (`types.NewRef`). -/
def tyRef (t : Ty) : Ty := .app (.const "ref") [t] none

/-- Modelled from the spec: the typing environment, a Go map from names to
types (assign overwrites, remove deletes; a stored nil type reads as
undefined, exactly as a Go map holding a nil interface value does). -/
abbrev Env := List (String × Ty)

/-- `env.Lookup`: a missing key and a stored nil both read as undefined. -/
def envLookup (env : Env) (n : String) : Option Ty :=
  match env.find? (fun p => p.1 == n) with
  | none => none
  | some p => if p.2.isNil then none else some p.2

/-- `env.Remove`. -/
def envRemove (env : Env) (n : String) : Env :=
  env.filter (fun p => p.1 != n)

/-- `env.Assign` (overwrite). -/
def envAssign (env : Env) (n : String) (t : Ty) : Env :=
  (n, t) :: envRemove env n

/-- Modelled from the spec: the mutable inference context (`InferenceContext`
together with its `commonContext`): variable store, environment stash,
`(invalid, err)` slot (the invalid expression recorded by its node id),
annotation mode with the annotation tables, and the SCC analysis results
consumed by a cursor in visitation order. -/
structure Ctx where
  store : Store
  envStash : List (String × Ty) := []
  invalid : Option Nat := none
  err : Option String := none
  annotate : Bool := false
  typeAnnots : List (Nat × Ty) := []
  funcAnnots : List (Nat × Option Ty) := []
  sccAnnots : List (Nat × List (List Nat)) := []
  analyzed : Bool := false
  sccTable : List (List (List Nat)) := []
  letGroupCount : Nat := 0

/-- Read the most recent `SetType` annotation recorded for a node id. -/
def annotLookup (annots : List (Nat × Ty)) (id : Nat) : Option Ty :=
  match annots.find? (fun p => p.1 == id) with
  | none => none
  | some p => some p.2

/-- Modelled from the spec: `Stash(env, name)` pushes any existing binding
onto the context's stash, reporting how many entries were pushed. -/
def stash (ctx : Ctx) (env : Env) (n : String) : Ctx × Nat :=
  match envLookup env n with
  | some t => ({ ctx with envStash := (n, t) :: ctx.envStash }, 1)
  | none => (ctx, 0)

/-- Modelled from the spec: `Unstash(env, count)` pops `count` stashed
bindings, most recent first, re-assigning each into the environment. -/
def unstash (ctx : Ctx) (env : Env) : Nat → Ctx × Env
  | 0 => (ctx, env)
  | k+1 =>
    match ctx.envStash with
    | [] => (ctx, env)
    | (n, t) :: rest => unstash { ctx with envStash := rest } (envAssign env n t) k

/-- Modelled from the spec: follow `Linked` variables to the real type
(`types.RealType`), fuel-bounded; link chains are acyclic in well-formed
stores, so enough fuel always exists. -/
def realTy (s : Store) : Nat → Ty → Ty
  | 0, t => t
  | fuel+1, .tvar id =>
    match (storeGet s id).link with
    | some t => realTy s fuel t
    | none => .tvar id
  | _+1, t => t

mutual
/-- An executable structural size for types (used only to compute recursion
bounds for fuel-limited walks). -/
def tySize : Ty → Nat
  | .app c params u => 1 + tySize c + tySizeList params + tySizeOpt u
  | .arrow args ret => 1 + tySizeList args + tySize ret
  | .record row => 1 + tySize row
  | .variant row => 1 + tySize row
  | .rowExtend row labels => 1 + tySize row + tySizeRow labels
  | _ => 1

/-- Structural size of a list of types. -/
def tySizeList : List Ty → Nat
  | [] => 0
  | t :: ts => 1 + tySize t + tySizeList ts

/-- Structural size of an optional type. -/
def tySizeOpt : Option Ty → Nat
  | none => 0
  | some t => 1 + tySize t

/-- Structural size of a row label map. -/
def tySizeRow : List (String × List Ty) → Nat
  | [] => 0
  | (_, ts) :: rest => 1 + tySizeList ts + tySizeRow rest
end

/-- A conservative recursion bound for walks over the store's type graph. -/
def storeDepthFuel (s : Store) : Nat :=
  s.foldl (fun acc v => acc + 1 + (match v.link with | some t => tySize t | none => 0)) 8

/-- Whether a variable is unbound (not linked, not generic). -/
def isUnbound (s : Store) (id : Nat) : Bool :=
  (storeGet s id).link.isNone && !(storeGet s id).generic

mutual
/-- Modelled from the spec (§4.3, steps 1–3 of the variable case): one walk
over the bound type performing the occurs check against `vid`, lowering
every unbound level above `lvl` to `lvl`, and propagating weakness when
`wk` is set. -/
def occursAdjust (vid lvl : Nat) (wk : Bool) : Nat → Ty → Store → Except String Store
  | 0, _, _ => .error "unify: recursion bound exceeded"
  | fuel+1, t, s =>
    match t with
    | .tvar id =>
      if id = vid then .error "recursive type unification (occurs check)"
      else
        match (storeGet s id).link with
        | some t' => occursAdjust vid lvl wk fuel t' s
        | none =>
          let info := storeGet s id
          if info.generic then .ok s
          else .ok (storeSet s id { info with level := min info.level lvl, weak := info.weak || wk })
    | .app c params u => do
      let s ← occursAdjust vid lvl wk fuel c s
      let s ← occursAdjustList vid lvl wk fuel params s
      match u with
      | some ut => occursAdjust vid lvl wk fuel ut s
      | none => .ok s
    | .arrow args ret => do
      let s ← occursAdjustList vid lvl wk fuel args s
      occursAdjust vid lvl wk fuel ret s
    | .record row => occursAdjust vid lvl wk fuel row s
    | .variant row => occursAdjust vid lvl wk fuel row s
    | .rowExtend row labels => do
      let s ← occursAdjust vid lvl wk fuel row s
      occursAdjustRow vid lvl wk fuel labels s
    | _ => .ok s

/-- `occursAdjust` over a list of types. -/
def occursAdjustList (vid lvl : Nat) (wk : Bool) : Nat → List Ty → Store → Except String Store
  | 0, _, _ => .error "unify: recursion bound exceeded"
  | _+1, [], s => .ok s
  | fuel+1, t :: ts, s => do
    let s ← occursAdjust vid lvl wk fuel t s
    occursAdjustList vid lvl wk fuel ts s

/-- `occursAdjust` over a row's label map. -/
def occursAdjustRow (vid lvl : Nat) (wk : Bool) : Nat → List (String × List Ty) → Store → Except String Store
  | 0, _, _ => .error "unify: recursion bound exceeded"
  | _+1, [], s => .ok s
  | fuel+1, (_, ts) :: rest, s => do
    let s ← occursAdjustList vid lvl wk fuel ts s
    occursAdjustRow vid lvl wk fuel rest s
end

/-- Modelled from the spec (§4.3, step 4): a size-restricted variable may
bind only a `Size` constant, another size-restricted variable, or an alias
whose underlying resolves to one of these. -/
def sizeCompatible (s : Store) : Nat → Ty → Bool
  | 0, _ => false
  | _+1, .size _ => true
  | _+1, .tvar id => (storeGet s id).sizeRestricted
  | fuel+1, .app _ _ (some u) => sizeCompatible s fuel u
  | _+1, _ => false

/-- Modelled from the spec (§4.3, variable case): bind unbound variable
`vid` to (already link-followed) type `t`: occurs check, level lowering
and weak propagation over `t`, the size-restriction check, transfer of
instance constraints, then the link. -/
def bindVar (fuel : Nat) (vid : Nat) (t : Ty) (s : Store) : Except String Store := do
  let info := storeGet s vid
  let s ← occursAdjust vid info.level info.weak fuel t s
  if info.sizeRestricted && !(sizeCompatible s fuel t) then
    .error "size-restricted type variable cannot unify with this type"
  else
    let s :=
      match t with
      | .tvar id2 =>
        let info2 := storeGet s id2
        storeSet s id2 { info2 with constraints := info.constraints ++ info2.constraints }
      | _ => s
    -- constraints against a non-variable type are deferred for discharge
    -- (never consulted again by the operations modelled here)
    .ok (storeSet s vid { storeGet s vid with link := some t, constraints := [] })

/-- Merge an outer layer of labels into an already-flattened map, keeping
source order for scoped labels (outer occurrences first). -/
def addLabelTypes (m : List (String × List Ty)) (lab : String) (ts : List Ty) : List (String × List Ty) :=
  match m with
  | [] => [(lab, ts)]
  | (l, xs) :: rest =>
    if l = lab then (l, ts ++ xs) :: rest
    else (l, xs) :: addLabelTypes rest lab ts

/-- Merge a whole layer of labels into a flattened map. -/
def mergeLabels : List (String × List Ty) → List (String × List Ty) → List (String × List Ty)
  | [], m => m
  | (lab, ts) :: rest, m => addLabelTypes (mergeLabels rest m) lab ts

/-- Modelled from the spec (§4.2 FlattenRow): walk `RowExtend` chains,
following links, merging the label maps and returning the tail. -/
def flattenRow (s : Store) : Nat → Ty → Except String (List (String × List Ty) × Ty)
  | 0, _ => .error "recursive row type"
  | fuel+1, t =>
    match realTy s (fuel+1) t with
    | .rowExtend row labels => do
      let (deeper, tail) ← flattenRow s fuel row
      .ok (mergeLabels labels deeper, tail)
    | t' => .ok ([], t')

/-- Look up a label in a flattened map. -/
def labelFind (m : List (String × List Ty)) (lab : String) : Option (List Ty) :=
  match m.find? (fun p => p.1 == lab) with
  | none => none
  | some p => some p.2

mutual
/-- Modelled from the spec (§4.3): fuel-bounded unification over the
mutable store.  Follows links, handles identity and variable binding,
then the structural cases; rows are flattened and matched label-wise. -/
def unify : Nat → Ty → Ty → Store → Except String Store
  | 0, _, _, _ => .error "unify: recursion bound exceeded"
  | fuel+1, a0, b0, s =>
    let a := realTy s (fuel+1) a0
    let b := realTy s (fuel+1) b0
    match a, b with
    | .tvar i, .tvar j =>
      if i = j then .ok s
      else if isUnbound s i then bindVar fuel i (.tvar j) s
      else if isUnbound s j then bindVar fuel j (.tvar i) s
      else .error "cannot unify generic type variables"
    | .tvar i, b' =>
      if isUnbound s i then bindVar fuel i b' s
      else .error "cannot unify a generic type variable"
    | a', .tvar j =>
      if isUnbound s j then bindVar fuel j a' s
      else .error "cannot unify a generic type variable"
    | .unit, .unit => .ok s
    | .const n1, .const n2 =>
      if n1 = n2 then .ok s else .error ("type mismatch: " ++ n1 ++ " with " ++ n2)
    | .size n1, .size n2 =>
      if n1 = n2 then .ok s else .error "size mismatch"
    | .app c1 p1 _, .app c2 p2 _ =>
      if p1.length ≠ p2.length then .error "arity mismatch for type application"
      else do
        let s ← unify fuel c1 c2 s
        unifyLists fuel p1 p2 s
    | .arrow a1 r1, .arrow a2 r2 =>
      if a1.length ≠ a2.length then .error "arity mismatch for function type"
      else do
        let s ← unifyLists fuel a1 a2 s
        unify fuel r1 r2 s
    | .record r1, .record r2 => unify fuel r1 r2 s
    | .variant r1, .variant r2 => unify fuel r1 r2 s
    | .rowEmpty, .rowEmpty => .ok s
    | .rowExtend row1 ls1, .rowExtend row2 ls2 => do
      let (m1, tail1) ← flattenRow s (fuel+1) (.rowExtend row1 ls1)
      let (m2, tail2) ← flattenRow s (fuel+1) (.rowExtend row2 ls2)
      let common := m1.filter (fun p => (labelFind m2 p.1).isSome)
      let m1only := m1.filter (fun p => (labelFind m2 p.1).isNone)
      let m2only := m2.filter (fun p => (labelFind m1 p.1).isNone)
      let s ← unifyCommonLabels fuel common m2 s
      match m1only, m2only with
      | [], [] => unify fuel tail1 tail2 s
      | [], _ => unify fuel tail1 (.rowExtend tail2 m2only) s
      | _, [] => unify fuel (.rowExtend tail1 m1only) tail2 s
      | _, _ =>
        -- both residuals non-empty: a fresh shared tail joins them
        match realTy s (fuel+1) tail1 with
        | .tvar i =>
          if isUnbound s i then do
            let (rid, s) := newVar s (storeGet s i).level
            let s ← unify fuel tail1 (.rowExtend (.tvar rid) m2only) s
            unify fuel (.rowExtend (.tvar rid) m1only) tail2 s
          else .error "row mismatch: labels missing from a closed row"
        | _ => .error "row mismatch: labels missing from a closed row"
    | _, _ => .error ("type mismatch: " ++ tyName a ++ " with " ++ tyName b)

/-- Pairwise unification of two equally long lists. -/
def unifyLists : Nat → List Ty → List Ty → Store → Except String Store
  | 0, _, _, _ => .error "unify: recursion bound exceeded"
  | _+1, [], [], s => .ok s
  | fuel+1, t1 :: ts1, t2 :: ts2, s => do
    let s ← unify fuel t1 t2 s
    unifyLists fuel ts1 ts2 s
  | _+1, _, _, _ => .error "arity mismatch"

/-- Unify the scoped-label lists of labels present on both sides (in the
left map's order, respecting list lengths and per-label order). -/
def unifyCommonLabels : Nat → List (String × List Ty) → List (String × List Ty) → Store → Except String Store
  | 0, _, _, _ => .error "unify: recursion bound exceeded"
  | _+1, [], _, s => .ok s
  | fuel+1, (lab, ts1) :: rest, m2, s =>
    match labelFind m2 lab with
    | none => .error "row label mismatch"
    | some ts2 =>
      if ts1.length ≠ ts2.length then .error "row label mismatch: scoped label lengths differ"
      else do
        let s ← unifyLists fuel ts1 ts2 s
        unifyCommonLabels fuel rest m2 s
end

mutual
/-- Modelled from the spec (§4.4 Generalize): walk the type, following
links, flipping every unbound, non-weak, non-size-restricted variable
whose level strictly exceeds `lvl` to `Generic`, in place. -/
def generalizeWalk (lvl : Nat) : Nat → Ty → Store → Store
  | 0, _, s => s
  | fuel+1, t, s =>
    match t with
    | .tvar id =>
      let info := storeGet s id
      match info.link with
      | some t' => generalizeWalk lvl fuel t' s
      | none =>
        if !info.generic && !info.weak && !info.sizeRestricted && lvl < info.level then
          storeSet s id { info with generic := true }
        else s
    | .app c params u =>
      let s := generalizeWalk lvl fuel c s
      let s := generalizeWalkList lvl fuel params s
      match u with
      | some ut => generalizeWalk lvl fuel ut s
      | none => s
    | .arrow args ret =>
      let s := generalizeWalkList lvl fuel args s
      generalizeWalk lvl fuel ret s
    | .record row => generalizeWalk lvl fuel row s
    | .variant row => generalizeWalk lvl fuel row s
    | .rowExtend row labels =>
      let s := generalizeWalk lvl fuel row s
      generalizeWalkRow lvl fuel labels s
    | _ => s

/-- `generalizeWalk` over a list of types. -/
def generalizeWalkList (lvl : Nat) : Nat → List Ty → Store → Store
  | 0, _, s => s
  | _+1, [], s => s
  | fuel+1, t :: ts, s =>
    let s := generalizeWalk lvl fuel t s
    generalizeWalkList lvl fuel ts s

/-- `generalizeWalk` over a row's label map. -/
def generalizeWalkRow (lvl : Nat) : Nat → List (String × List Ty) → Store → Store
  | 0, _, s => s
  | _+1, [], s => s
  | fuel+1, (_, ts) :: rest, s =>
    let s := generalizeWalkList lvl fuel ts s
    generalizeWalkRow lvl fuel rest s
end

/-- Modelled from the spec: `GeneralizeAtLevel(level, t)` mutates variable
states in place and returns the same type value. -/
def GeneralizeAtLevel (lvl : Nat) (t : Ty) (s : Store) : Ty × Store :=
  (t, generalizeWalk lvl (storeDepthFuel s + tySize t) t s)

/-- `GeneralizeAtLevel` lifted over Go's nil type (never walked). -/
def generalizeAtLevelN (lvl : Nat) (t : Ty) (s : Store) : Ty × Store :=
  if t.isNil then (t, s) else GeneralizeAtLevel lvl t s

/-! ## The AST surface and the inference driver (`src/infer.go`) -/

/-- `ti.common.Unify` on the context's store (fuel from the store size). -/
def ctxUnify (a b : Ty) (ctx : Ctx) : Except String Ctx :=
  match unify (storeDepthFuel ctx.store + tySize a + tySize b) a b ctx.store with
  | .ok st => .ok { ctx with store := st }
  | .error msg => .error msg

/-- `ti.common.Instantiate`: the driver uses the typeutil implementation
(`ti.common` is a `typeutil.CommonContext`). -/
def ctxInstantiate (level : Nat) (t : Ty) (ctx : Ctx) : Ty × Ctx :=
  let (t', st) := Typeutil.Instantiate level t ctx.store
  (t', { ctx with store := st })

/-- `types.RealType` on the context's store. -/
def ctxRealTy (ctx : Ctx) (t : Ty) : Ty :=
  realTy ctx.store (storeDepthFuel ctx.store + tySize t) t

/-- `VarTracker.NewList`: allocate `n` fresh variables at `level`. -/
def newVarList (s : Store) (level n : Nat) : List Nat × Store :=
  ((List.range n).map (fun k => s.length + k), s ++ List.replicate n { level := level })

/-- Set the weak flag of each listed variable (`SetWeak`). -/
def setWeakAll (s : Store) (ids : List Nat) : Store :=
  ids.foldl (fun s i => storeSet s i { storeGet s i with weak := true }) s

/-- Modelled from the spec (§6 AST surface): the expression variants the
driver consumes.  Every node carries a numeric id standing for the Go
node's identity (used for annotation slots and the invalid-expression
slot); a `Literal` carries its `construct` callback, returning a type and
an optional error as the Go callback does (`nilTy` models a nil type). -/
inductive Expr where
  | lit (id : Nat) (usingVars : List String)
      (construct : Env → Nat → List Ty → Ty × Option String) : Expr
  | varE (id : Nat) (name : String) : Expr
  | deref (id : Nat) (ref : Expr) : Expr
  | derefAssign (id : Nat) (ref : Expr) (value : Expr) : Expr
  | call (id : Nat) (fn : Expr) (args : List Expr) : Expr
  | func (id : Nat) (argNames : List String) (body : Expr) : Expr
  | letE (id : Nat) (v : String) (value : Expr) (body : Expr) : Expr
  | letGroup (id : Nat) (vars : List (String × Expr)) (body : Expr) : Expr
  | pipe (id : Nat) (asVar : String) (source : Expr) (sequence : List Expr) : Expr
  | recordEmpty (id : Nat) : Expr
  | recordSelect (id : Nat) (recE : Expr) (label : String) : Expr
  | recordRestrict (id : Nat) (recE : Expr) (label : String) : Expr
  | recordExtend (id : Nat) (recE : Expr) (labels : List (String × Expr)) : Expr
  | variantE (id : Nat) (label : String) (value : Expr) : Expr
  | matchE (id : Nat) (value : Expr) (cases : List (String × String × Expr))
      (dflt : Option (String × Expr)) : Expr
  | controlFlow (id : Nat) (locals : List String) (blocks : List (Nat × List Expr))
      (jumps : List (Nat × Nat)) : Expr

/-- The `*ast.Func` type test used by `Let`/`LetGroup`. -/
def Expr.isFuncNode : Expr → Bool
  | .func _ _ _ => true
  | _ => false

/-- The result of `infer`: Go returns `(types.Type, error)` and mutates
the environment and context in place; `ty = nilTy` models a nil type. -/
structure IRes where
  ty : Ty
  err : Option String
  env : Env
  ctx : Ctx

/-- Result of the let-group SCC machinery, carrying the accumulated
stash count. -/
structure GroupRes where
  err : Option String
  env : Env
  ctx : Ctx
  stashed : Nat

/-- Result of `splitRecord`. -/
structure SplitRes where
  labelTy : Ty
  restTy : Ty
  err : Option String
  env : Env
  ctx : Ctx

/-- Result of the record-extension label loop. -/
structure LabRes where
  labels : List (String × List Ty)
  err : Option String
  env : Env
  ctx : Ctx

/-- Look up the `using` variables of a literal, failing on the first
missing name (the Go loop returns at the first nil lookup). -/
def lookupUsing (env : Env) : List String → Except String (List Ty)
  | [] => .ok []
  | n :: rest =>
    match envLookup env n with
    | none => .error n
    | some t =>
      match lookupUsing env rest with
      | .error m => .error m
      | .ok ts => .ok (t :: ts)

/-- Stash and bind a list of (name, type) pairs in order (the binding
loops of `Func` and `ControlFlow`). -/
def stashAssignAll (ctx : Ctx) (env : Env) : List (String × Ty) → Ctx × Env × Nat
  | [] => (ctx, env, 0)
  | (n, t) :: rest =>
    let (ctx1, c1) := stash ctx env n
    let env1 := envAssign env n t
    let (ctx2, env2, c2) := stashAssignAll ctx1 env1 rest
    (ctx2, env2, c1 + c2)

/-- Remove a list of names in order. -/
def removeAll (env : Env) : List String → Env
  | [] => env
  | n :: rest => removeAll (envRemove env n) rest

/-- Assign a list of (name, type) pairs in order (no stashing). -/
def assignAll (env : Env) : List (String × Ty) → Env
  | [] => env
  | (n, t) :: rest => assignAll (envAssign env n t) rest

/-- Scan the top `count` entries of the context's stash, most recent
first, for a binding of `name` (the let-group non-function rebinding). -/
def findStashed (stashList : List (String × Ty)) (count : Nat) (name : String) : Option Ty :=
  match (stashList.take count).find? (fun p => p.1 == name) with
  | some p => some p.2
  | none => none

/-- The let-group per-SCC binding loop: stash each binding's name and
bind it to its fresh variable (`none` on an out-of-range binding index,
where the Go code would panic). -/
def bindSCCVars (ctx : Ctx) (env : Env) (vars : List (String × Expr)) :
    List (Nat × Nat) → Option (Ctx × Env × Nat)
  | [] => some (ctx, env, 0)
  | (bindNum, vid) :: rest =>
    match vars[bindNum]? with
    | none => none
    | some (name, _) =>
      let (ctx1, c1) := stash ctx env name
      let env1 := envAssign env name (.tvar vid)
      match bindSCCVars ctx1 env1 vars rest with
      | none => none
      | some (ctx2, env2, c2) => some (ctx2, env2, c1 + c2)

/-- The let-group per-SCC generalization loop: rebind each name to its
generalized type. -/
def generalizeSCCBindings (lvl : Nat) (vars : List (String × Expr)) :
    List (Nat × Nat) → Ctx → Env → Option (Ctx × Env)
  | [], ctx, env => some (ctx, env)
  | (bindNum, vid) :: rest, ctx, env =>
    match vars[bindNum]? with
    | none => none
    | some (name, _) =>
      let (gt, st) := GeneralizeAtLevel lvl (.tvar vid) ctx.store
      generalizeSCCBindings lvl vars rest { ctx with store := st } (envAssign env name gt)

/-- Modelled from the spec: the designated return-block index of a
control-flow graph (`ast.ControlFlowReturnIndex`). -/
def controlFlowReturnIndex : Nat := 1

/-- `e.HasJump(a, b)` over the jump list. -/
def hasJump (jumps : List (Nat × Nat)) (a b : Nat) : Bool :=
  jumps.any (fun p => p.1 == a && p.2 == b)

/-- One closure step of the jump relation over a frontier of blocks. -/
def reachStep (jumps : List (Nat × Nat)) (frontier : List Nat) : List Nat :=
  frontier ++ (jumps.filter (fun p => frontier.contains p.1)).map (fun p => p.2)

/-- Iterated closure of the jump relation. -/
def reachSetFuel (jumps : List (Nat × Nat)) : Nat → List Nat → List Nat
  | 0, acc => acc
  | fuel+1, acc => reachSetFuel jumps fuel (reachStep jumps acc)

/-- Modelled from the spec (§4.5): block `a` transitively (and
reflexively) reaches block `b` along jumps. -/
def reaches (jumps : List (Nat × Nat)) (bound : Nat) (a b : Nat) : Bool :=
  (reachSetFuel jumps bound [a]).contains b

/-- The strongly connected component of a block: all blocks mutually
reachable with it. -/
def sccOf (blocks : List (Nat × List Expr)) (jumps : List (Nat × Nat)) (bound : Nat)
    (b : Nat) : List (Nat × List Expr) :=
  blocks.filter (fun c => reaches jumps bound b c.1 && reaches jumps bound c.1 b)

/-- Modelled from the spec (§4.5): strongly connected components grouped
by mutual reachability, listed in first-appearance (dependency) order. -/
def sccOrder (blocks : List (Nat × List Expr)) (jumps : List (Nat × Nat)) (bound : Nat) :
    List (List (Nat × List Expr)) :=
  blocks.foldl (fun acc b =>
    if acc.any (fun cls => cls.any (fun c => c.1 == b.1)) then acc
    else acc ++ [sccOf blocks jumps bound b.1]) []

/-- Modelled from the spec (§4.5): `e.Validate` — every block must reach
the designated return block; on success the SCCs of the block-jump graph
are returned in dependency order. -/
def validateCF (blocks : List (Nat × List Expr)) (jumps : List (Nat × Nat)) :
    Except String (List (List (Nat × List Expr))) :=
  let bound := blocks.length + 1
  if blocks.all (fun b => reaches jumps bound b.1 controlFlowReturnIndex) then
    .ok (sccOrder blocks jumps bound)
  else .error "all blocks within a control flow graph must reach the return block"

/-- Embeds `matchFuncType` from `src/infer.go`: an `Arrow` must have the
expected arity; a linked variable is followed; an unbound variable is
linked to a fresh arrow whose `argc+1` fresh variables live at the
variable's own level; a generic variable and every other type fail. -/
def matchFuncType : Nat → Nat → Ty → Store → Except String (List Ty × Ty × Store)
  | 0, _, _, _ => .error "matchFuncType: recursion bound exceeded"
  | fuel+1, argc, t, s =>
    match t with
    | .arrow args ret =>
      if args.length ≠ argc then .error "Unexpected number of arguments for applied function"
      else .ok (args, ret, s)
    | .tvar id =>
      match (storeGet s id).link with
      | some t' => matchFuncType fuel argc t' s
      | none =>
        if !(storeGet s id).generic then
          let lvl := (storeGet s id).level
          let (ids, s) := newVarList s lvl (argc+1)
          let args := (ids.take argc).map Ty.tvar
          let retTy := Ty.tvar (ids.getD argc 0)
          let arrow := Ty.arrow args retTy
          let s := storeSet s id { storeGet s id with link := some arrow }
          .ok (args, retTy, s)
        else .error "Type variable for applied function has not been instantiated"
    | t => .error ("Unexpected type " ++ tyName t ++ " for applied function")

set_option maxHeartbeats 2000000 in
mutual
/-- Embeds `(*InferenceContext).infer` from `src/infer.go`.  The first
argument is recursion fuel (every recursive call decrements it; the Go
recursion is bounded by the expression structure, so enough fuel always
exists).  Each case mirrors the source case for the same AST variant,
including its environment updates, `(invalid, err)` recording and
annotation writes. -/
def infer : Nat → Ctx → Env → Nat → Expr → IRes
  | 0, ctx, env, _, _ => ⟨.nilTy, some "infer: recursion bound exceeded", env, ctx⟩
  | fuel+1, ctx, env, level, e =>
    match e with
    | .lit id usingVars construct =>
      match lookupUsing env usingVars with
      | .error name =>
        -- NOTE: the source returns this error without recording (invalid, err)
        ⟨.nilTy, some ("Variable " ++ name ++ " is not defined"), env, ctx⟩
      | .ok usingTys =>
        match construct env level usingTys with
        | (t, some msg) => ⟨t, some msg, env, { ctx with invalid := some id, err := some msg }⟩
        | (t, none) =>
          let (t, ctx) := ctxInstantiate level t ctx
          let ctx := if ctx.annotate then { ctx with typeAnnots := (id, t) :: ctx.typeAnnots } else ctx
          ⟨t, none, env, ctx⟩
    | .varE id n =>
      match envLookup env n with
      | none =>
        let msg := "Variable " ++ n ++ " is not defined"
        ⟨.nilTy, some msg, env, { ctx with invalid := some id, err := some msg }⟩
      | some t =>
        let (t, ctx) := ctxInstantiate level t ctx
        let ctx := if ctx.annotate then { ctx with typeAnnots := (id, t) :: ctx.typeAnnots } else ctx
        ⟨t, none, env, ctx⟩
    | .deref id r =>
      let res := infer fuel ctx env level r
      match res.err with
      | some e2 => ⟨.nilTy, some e2, res.env, res.ctx⟩
      | none =>
        let (v, st) := newVar res.ctx.store level
        let st := storeSet st v { storeGet st v with weak := true }
        let ctx := { res.ctx with store := st }
        match ctxUnify (tyRef (.tvar v)) res.ty ctx with
        | .error msg => ⟨res.ty, some msg, res.env, { ctx with invalid := some id, err := some msg }⟩
        | .ok ctx =>
          let t := ctxRealTy ctx (.tvar v)
          let ctx := if ctx.annotate then { ctx with typeAnnots := (id, t) :: ctx.typeAnnots } else ctx
          ⟨t, none, res.env, ctx⟩
    | .derefAssign id r val =>
      let res := infer fuel ctx env level r
      match res.err with
      | some e2 => ⟨res.ty, some e2, res.env, res.ctx⟩
      | none =>
        let (v, st) := newVar res.ctx.store level
        let st := storeSet st v { storeGet st v with weak := true }
        let ctx := { res.ctx with store := st }
        match ctxUnify (tyRef (.tvar v)) res.ty ctx with
        | .error msg => ⟨res.ty, some msg, res.env, { ctx with invalid := some id, err := some msg }⟩
        | .ok ctx =>
          let rv := infer fuel ctx res.env level val
          match rv.err with
          | some e2 => ⟨res.ty, some e2, rv.env, rv.ctx⟩
          | none =>
            match ctxUnify (.tvar v) rv.ty rv.ctx with
            | .error msg => ⟨res.ty, some msg, rv.env, { rv.ctx with invalid := some id, err := some msg }⟩
            | .ok ctx =>
              let refT := ctxRealTy ctx res.ty
              let ctx := if ctx.annotate then { ctx with typeAnnots := (id, refT) :: ctx.typeAnnots } else ctx
              ⟨refT, none, rv.env, ctx⟩
    | .pipe id asVar source seq =>
      let rs := infer fuel ctx env (level+1) source
      match rs.err with
      | some e2 => ⟨.nilTy, some e2, rs.env, rs.ctx⟩
      | none =>
        match seq with
        | [] =>
          let ctx := if rs.ctx.annotate then { rs.ctx with typeAnnots := (id, rs.ty) :: rs.ctx.typeAnnots } else rs.ctx
          ⟨rs.ty, none, rs.env, ctx⟩
        | step0 :: rest =>
          let (ctx1, cnt) := stash rs.ctx rs.env asVar
          let lr := inferPipeSteps fuel ctx1 rs.env level asVar (step0 :: rest) rs.ty none
          let ctx2 := if lr.ctx.annotate && lr.err.isSome then
              { lr.ctx with typeAnnots := (id, lr.ty) :: lr.ctx.typeAnnots }
            else lr.ctx
          let env2 := envRemove lr.env asVar
          let (ctx3, env3) := unstash ctx2 env2 cnt
          ⟨lr.ty, lr.err, env3, ctx3⟩
    | .controlFlow id locals blocks jumps =>
      inferControlFlow fuel ctx env level id locals blocks jumps
    | .letE id v value body =>
      match value with
      | .varE _ x =>
        -- do not instantiate/generalize `let x = <var>`
        match envLookup env x with
        | none =>
          let msg := "Variable " ++ x ++ " is not defined"
          ⟨.nilTy, some msg, env, { ctx with invalid := some id, err := some msg }⟩
        | some t =>
          let (ctx1, cnt) := stash ctx env v
          let env1 := envAssign env v t
          let r := infer fuel ctx1 env1 level body
          let env2 := envRemove r.env v
          let (ctx2, env3) := unstash r.ctx env2 cnt
          ⟨r.ty, r.err, env3, ctx2⟩
      | .func fid fargs fbody =>
        -- allow self-references within function types
        let (tvId, st) := newVar ctx.store (level+1)
        let ctx0 := { ctx with store := st }
        let (ctx1, cnt) := stash ctx0 env v
        let env1 := envAssign env v (.tvar tvId)
        let r := infer fuel ctx1 env1 (level+1) (.func fid fargs fbody)
        match r.err with
        | some e2 => ⟨.nilTy, some e2, r.env, r.ctx⟩
        | none =>
          match ctxUnify (.tvar tvId) r.ty r.ctx with
          | .error msg => ⟨.nilTy, some msg, r.env, { r.ctx with invalid := some id, err := some msg }⟩
          | .ok ctx2 =>
            let (gt, st2) := GeneralizeAtLevel level r.ty ctx2.store
            let ctx3 := { ctx2 with store := st2 }
            let env2 := envAssign r.env v gt
            let rb := infer fuel ctx3 env2 level body
            let env3 := envRemove rb.env v
            let (ctx4, env4) := unstash rb.ctx env3 cnt
            ⟨rb.ty, rb.err, env4, ctx4⟩
      | _ =>
        -- disallow self-references within non-function types
        let r := infer fuel ctx env (level+1) value
        match r.err with
        | some e2 => ⟨.nilTy, some e2, r.env, r.ctx⟩
        | none =>
          let (ctx1, cnt) := stash r.ctx r.env v
          let (gt, st) := GeneralizeAtLevel level r.ty ctx1.store
          let ctx2 := { ctx1 with store := st }
          let env1 := envAssign r.env v gt
          let rb := infer fuel ctx2 env1 level body
          let env2 := envRemove rb.env v
          let (ctx3, env3) := unstash rb.ctx env2 cnt
          ⟨rb.ty, rb.err, env3, ctx3⟩
    | .letGroup id vars body =>
      inferLetGroup fuel ctx env level id vars body
    | .func id argNames body =>
      let (ids, st) := newVarList ctx.store level argNames.length
      let argTys := ids.map Ty.tvar
      let ctx0 := { ctx with store := st }
      let (ctx1, env1, cnt) := stashAssignAll ctx0 env (argNames.zip argTys)
      let r := infer fuel ctx1 env1 level body
      let env2 := removeAll r.env argNames
      let (ctx2, env3) := unstash r.ctx env2 cnt
      let t := Ty.arrow argTys r.ty
      let ctx3 := if ctx2.annotate then { ctx2 with typeAnnots := (id, t) :: ctx2.typeAnnots } else ctx2
      ⟨t, r.err, env3, ctx3⟩
    | .call id fn args =>
      let rf := infer fuel ctx env level fn
      match rf.err with
      | some e2 => ⟨.nilTy, some e2, rf.env, rf.ctx⟩
      | none =>
        match matchFuncType (storeDepthFuel rf.ctx.store + tySize rf.ty) args.length rf.ty rf.ctx.store with
        | .error msg => ⟨.nilTy, some msg, rf.env, { rf.ctx with invalid := some id, err := some msg }⟩
        | .ok (arrowArgs, arrowRet, st) =>
          let ctx1 := { rf.ctx with store := st }
          let ra := inferCallArgs fuel ctx1 rf.env level id (args.zip arrowArgs)
          match ra.err with
          | some e2 => ⟨.nilTy, some e2, ra.env, ra.ctx⟩
          | none =>
            let ctx2 := ra.ctx
            let ctx3 := if ctx2.annotate then
                { ctx2 with
                  funcAnnots := (id, match rf.ty with | .arrow a r => some (Ty.arrow a r) | _ => none) :: ctx2.funcAnnots,
                  typeAnnots := (id, arrowRet) :: ctx2.typeAnnots }
              else ctx2
            ⟨arrowRet, none, ra.env, ctx3⟩
    | .recordEmpty id =>
      let rt := Ty.record .rowEmpty
      let ctx1 := if ctx.annotate then { ctx with typeAnnots := (id, rt) :: ctx.typeAnnots } else ctx
      ⟨rt, none, env, ctx1⟩
    | .recordSelect id recE label =>
      let sr := splitRecord fuel ctx env level recE label
      match sr.err with
      | some msg => ⟨.nilTy, some msg, sr.env, { sr.ctx with invalid := some id, err := some msg }⟩
      | none => ⟨sr.labelTy, none, sr.env, sr.ctx⟩
    | .recordRestrict id recE label =>
      let sr := splitRecord fuel ctx env level recE label
      match sr.err with
      | some msg => ⟨.nilTy, some msg, sr.env, { sr.ctx with invalid := some id, err := some msg }⟩
      | none => ⟨sr.restTy, none, sr.env, sr.ctx⟩
    | .recordExtend id recE labels =>
      let lr := inferRecordLabels fuel ctx env level labels []
      match lr.err with
      | some e2 => ⟨.nilTy, some e2, lr.env, lr.ctx⟩
      | none =>
        let (rowId, st) := newVar lr.ctx.store level
        let ctx1 := { lr.ctx with store := st }
        let rr := infer fuel ctx1 lr.env level recE
        match rr.err with
        | some e2 => ⟨.nilTy, some e2, rr.env, rr.ctx⟩
        | none =>
          match ctxUnify (.record (.tvar rowId)) rr.ty rr.ctx with
          | .error msg => ⟨.nilTy, some msg, rr.env, { rr.ctx with invalid := some id, err := some msg }⟩
          | .ok ctx2 =>
            match flattenRow ctx2.store (storeDepthFuel ctx2.store + tySizeRow lr.labels + 4)
                (.rowExtend (.tvar rowId) lr.labels) with
            | .error msg => ⟨.nilTy, some msg, rr.env, { ctx2 with invalid := some id, err := some msg }⟩
            | .ok (flatLabels, rest) =>
              let rt := Ty.record (.rowExtend rest flatLabels)
              let ctx3 := if ctx2.annotate then { ctx2 with typeAnnots := (id, rt) :: ctx2.typeAnnots } else ctx2
              ⟨rt, none, rr.env, ctx3⟩
    | .variantE id label value =>
      let (rowId, st) := newVar ctx.store level
      let (variantId, st2) := newVar st level
      let ctx0 := { ctx with store := st2 }
      let r := infer fuel ctx0 env level value
      match r.err with
      | some e2 => ⟨.nilTy, some e2, r.env, r.ctx⟩
      | none =>
        match ctxUnify (.tvar variantId) r.ty r.ctx with
        | .error msg => ⟨.nilTy, some msg, r.env, { r.ctx with invalid := some id, err := some msg }⟩
        | .ok ctx1 =>
          let vt := Ty.variant (.rowExtend (.tvar rowId) [(label, [Ty.tvar variantId])])
          ⟨vt, none, r.env, ctx1⟩
    | .matchE id value cases dflt =>
      match dflt with
      | none =>
        let (retId, st) := newVar ctx.store level
        let ctx0 := { ctx with store := st }
        inferMatchRest fuel ctx0 env level id value cases (.tvar retId) .rowEmpty
      | some (dv, dval) =>
        let (rowId, st) := newVar ctx.store level
        let ctx0 := { ctx with store := st }
        let (ctx1, cnt) := stash ctx0 env dv
        let env1 := envAssign env dv (.variant (.tvar rowId))
        let rd := infer fuel ctx1 env1 level dval
        let env2 := envRemove rd.env dv
        let (ctx2, env3) := unstash rd.ctx env2 cnt
        match rd.err with
        | some e2 => ⟨.nilTy, some e2, env3, ctx2⟩
        | none => inferMatchRest fuel ctx2 env3 level id value cases rd.ty (.tvar rowId)
termination_by structural fuel => fuel

/-- The shared tail of the `Match` case: infer the matched value, the
cases, unify with the accumulated variant row and return the shared
return type. -/
def inferMatchRest : Nat → Ctx → Env → Nat → Nat → Expr → List (String × String × Expr) → Ty → Ty → IRes
  | 0, ctx, env, _, _, _, _, _, _ => ⟨.nilTy, some "infer: recursion bound exceeded", env, ctx⟩
  | fuel+1, ctx, env, level, id, value, cases, retType, rowType =>
    let rv := infer fuel ctx env level value
    match rv.err with
    | some e2 => ⟨.nilTy, some e2, rv.env, rv.ctx⟩
    | none =>
      let cr := inferCases fuel rv.ctx rv.env level retType rowType cases
      match cr.err with
      | some e2 => ⟨.nilTy, some e2, cr.env, cr.ctx⟩
      | none =>
        match ctxUnify rv.ty (.variant cr.ty) cr.ctx with
        | .error msg => ⟨.nilTy, some msg, cr.env, { cr.ctx with invalid := some id, err := some msg }⟩
        | .ok ctx1 =>
          let ctx2 := if ctx1.annotate then { ctx1 with typeAnnots := (id, retType) :: ctx1.typeAnnots } else ctx1
          ⟨retType, none, cr.env, ctx2⟩
termination_by structural fuel => fuel

/-- Embeds the `Pipe` step loop of `src/infer.go`: every step re-binds the
placeholder to the generalized current type and is inferred — the loop
does not stop at a failing step; the final `(t, err)` pair is the last
step's result. -/
def inferPipeSteps : Nat → Ctx → Env → Nat → String → List Expr → Ty → Option String → IRes
  | 0, ctx, env, _, _, _, _, _ => ⟨.nilTy, some "infer: recursion bound exceeded", env, ctx⟩
  | fuel+1, ctx, env, level, asVar, steps, t, err =>
    match steps with
    | [] => ⟨t, err, env, ctx⟩
    | step :: rest =>
      let (gt, st) := generalizeAtLevelN level t ctx.store
      let ctx1 := { ctx with store := st }
      let env1 := envAssign env asVar gt
      let r := infer fuel ctx1 env1 level step
      inferPipeSteps fuel r.ctx r.env level asVar rest r.ty r.err
termination_by structural fuel => fuel

/-- Embeds the `Call` argument loop: each argument is inferred and unified
against the arrow's corresponding parameter, left to right, stopping at
the first failure (a unification failure records the call expression). -/
def inferCallArgs : Nat → Ctx → Env → Nat → Nat → List (Expr × Ty) → IRes
  | 0, ctx, env, _, _, _ => ⟨.nilTy, some "infer: recursion bound exceeded", env, ctx⟩
  | fuel+1, ctx, env, level, callId, pairs =>
    match pairs with
    | [] => ⟨.nilTy, none, env, ctx⟩
    | (argE, param) :: rest =>
      let r := infer fuel ctx env level argE
      match r.err with
      | some e2 => ⟨.nilTy, some e2, r.env, r.ctx⟩
      | none =>
        match ctxUnify param r.ty r.ctx with
        | .error msg => ⟨.nilTy, some msg, r.env, { r.ctx with invalid := some callId, err := some msg }⟩
        | .ok ctx1 => inferCallArgs fuel ctx1 r.env level callId rest
termination_by structural fuel => fuel

/-- Embeds `splitRecord` from `src/infer.go`. -/
def splitRecord : Nat → Ctx → Env → Nat → Expr → String → SplitRes
  | 0, ctx, env, _, _, _ => ⟨.nilTy, .nilTy, some "infer: recursion bound exceeded", env, ctx⟩
  | fuel+1, ctx, env, level, recordExpr, label =>
    let (rowId, st) := newVar ctx.store level
    let (labelId, st2) := newVar st level
    let ctx0 := { ctx with store := st2 }
    let paramType := Ty.record (.rowExtend (.tvar rowId) [(label, [Ty.tvar labelId])])
    let r := infer fuel ctx0 env level recordExpr
    match r.err with
    | some e2 => ⟨.nilTy, .nilTy, some e2, r.env, r.ctx⟩
    | none =>
      match ctxUnify paramType r.ty r.ctx with
      | .error msg => ⟨.nilTy, .nilTy, some msg, r.env, r.ctx⟩
      | .ok ctx1 => ⟨.tvar labelId, .record (.tvar rowId), none, r.env, ctx1⟩
termination_by structural fuel => fuel

/-- Embeds the `RecordExtend` label loop: infer each label value in order,
building the label map (`mb.Set` semantics: a repeated label replaces the
previous entry). -/
def inferRecordLabels : Nat → Ctx → Env → Nat → List (String × Expr) → List (String × List Ty) → LabRes
  | 0, ctx, env, _, _, _ => ⟨[], some "infer: recursion bound exceeded", env, ctx⟩
  | fuel+1, ctx, env, level, labels, mb =>
    match labels with
    | [] => ⟨mb, none, env, ctx⟩
    | (lab, valE) :: rest =>
      let r := infer fuel ctx env level valE
      match r.err with
      | some e2 => ⟨[], some e2, r.env, r.ctx⟩
      | none =>
        let mb1 :=
          if mb.any (fun p => p.1 == lab) then
            mb.map (fun p => if p.1 == lab then (p.1, [r.ty]) else p)
          else mb ++ [(lab, [r.ty])]
        inferRecordLabels fuel r.ctx r.env level rest mb1
termination_by structural fuel => fuel

/-- Embeds `inferCases` from `src/infer.go`: allocate one fresh variant
variable per case, then accumulate the row over the cases in reverse
order. -/
def inferCases : Nat → Ctx → Env → Nat → Ty → Ty → List (String × String × Expr) → IRes
  | 0, ctx, env, _, _, _, _ => ⟨.nilTy, some "infer: recursion bound exceeded", env, ctx⟩
  | fuel+1, ctx, env, level, retType, rowType, cases =>
    let (ids, st) := newVarList ctx.store level cases.length
    let ctx0 := { ctx with store := st }
    inferCasesLoop fuel ctx0 env level retType rowType (cases.reverse.zip (ids.map Ty.tvar))
termination_by structural fuel => fuel

/-- The reverse-order case loop of `inferCases`: bind the case variable,
infer the body, unify with the shared return type and extend the
accumulated row by `{label: [variantType]}`.  (The Go `c.SetVariantType`
writes to a value copy of the case and is observable nowhere, so it is
not modelled.) -/
def inferCasesLoop : Nat → Ctx → Env → Nat → Ty → Ty → List ((String × String × Expr) × Ty) → IRes
  | 0, ctx, env, _, _, _, _ => ⟨.nilTy, some "infer: recursion bound exceeded", env, ctx⟩
  | fuel+1, ctx, env, level, retType, rowType, pairs =>
    match pairs with
    | [] => ⟨rowType, none, env, ctx⟩
    | ((lab, v, body), vt) :: rest =>
      let (ctx1, cnt) := stash ctx env v
      let env1 := envAssign env v vt
      let r := infer fuel ctx1 env1 level body
      let env2 := envRemove r.env v
      let (ctx2, env3) := unstash r.ctx env2 cnt
      match r.err with
      | some e2 => ⟨.nilTy, some e2, env3, ctx2⟩
      | none =>
        match ctxUnify retType r.ty ctx2 with
        | .error msg => ⟨.nilTy, some msg, env3, ctx2⟩
        | .ok ctx3 =>
          inferCasesLoop fuel ctx3 env3 level retType (.rowExtend rowType [(lab, [vt])]) rest
termination_by structural fuel => fuel

/-- Embeds `inferLetGroup` from `src/infer.go`.  The SCC analysis results
are provided in the context's table (the external analyzer is not part of
the sources; `Analyze` is modelled as consuming the table). -/
def inferLetGroup : Nat → Ctx → Env → Nat → Nat → List (String × Expr) → Expr → IRes
  | 0, ctx, env, _, _, _, _ => ⟨.nilTy, some "infer: recursion bound exceeded", env, ctx⟩
  | fuel+1, ctx, env, level, id, vars, body =>
    let ctx := if ctx.analyzed then ctx else { ctx with analyzed := true }
    match ctx.sccTable[ctx.letGroupCount]? with
    | none => ⟨.nilTy, some "internal: missing SCC analysis for let-group", env, ctx⟩
    | some sccs =>
      let ctx1 := { ctx with letGroupCount := ctx.letGroupCount + 1 }
      let gr := inferLetGroupSCCs fuel ctx1 env level id vars sccs 0
      match gr.err with
      | some e2 => ⟨.nilTy, some e2, gr.env, gr.ctx⟩
      | none =>
        let rb := infer fuel gr.ctx gr.env level body
        let env2 := removeAll rb.env (vars.map (fun p => p.1))
        let (ctx2, env3) := unstash rb.ctx env2 gr.stashed
        let ctx3 :=
          if rb.err.isNone && ctx2.annotate then
            { ctx2 with sccAnnots := (id, sccs) :: ctx2.sccAnnots }
          else ctx2
        ⟨rb.ty, rb.err, env3, ctx3⟩
termination_by structural fuel => fuel

/-- The outer SCC loop of `inferLetGroup`: per component, allocate fresh
variables at `level+1`, bind all names, infer and unify each binding,
then generalize at `level`. -/
def inferLetGroupSCCs : Nat → Ctx → Env → Nat → Nat → List (String × Expr) → List (List Nat) → Nat → GroupRes
  | 0, ctx, env, _, _, _, _, stashed => ⟨some "infer: recursion bound exceeded", env, ctx, stashed⟩
  | fuel+1, ctx, env, level, id, vars, sccs, stashed =>
    match sccs with
    | [] => ⟨none, env, ctx, stashed⟩
    | scc :: rest =>
      let (ids, st) := newVarList ctx.store (level+1) scc.length
      let ctx0 := { ctx with store := st }
      match bindSCCVars ctx0 env vars (scc.zip ids) with
      | none => ⟨some "internal: SCC binding index out of range", env, ctx0, stashed⟩
      | some (ctx1, env1, cnt) =>
        let stashed1 := stashed + cnt
        let br := inferSCCBindings fuel ctx1 env1 level id vars stashed1 (scc.zip ids)
        match br.err with
        | some e2 => ⟨some e2, br.env, br.ctx, stashed1⟩
        | none =>
          match generalizeSCCBindings level vars (scc.zip ids) br.ctx br.env with
          | none => ⟨some "internal: SCC binding index out of range", br.env, br.ctx, stashed1⟩
          | some (ctx2, env2) =>
            inferLetGroupSCCs fuel ctx2 env2 level id vars rest stashed1
termination_by structural fuel => fuel

/-- The per-binding loop of a let-group SCC: for non-function values the
binding's own name is temporarily unbound (restored from the stash when
an outer binding was stashed); each value is inferred at `level+1` and
unified with its fresh variable. -/
def inferSCCBindings : Nat → Ctx → Env → Nat → Nat → List (String × Expr) → Nat → List (Nat × Nat) → GroupRes
  | 0, ctx, env, _, _, _, stashed, _ => ⟨some "infer: recursion bound exceeded", env, ctx, stashed⟩
  | fuel+1, ctx, env, level, id, vars, stashed, pairs =>
    match pairs with
    | [] => ⟨none, env, ctx, stashed⟩
    | (bindNum, vid) :: rest =>
      match vars[bindNum]? with
      | none => ⟨some "internal: SCC binding index out of range", env, ctx, stashed⟩
      | some (name, value) =>
        let isFn := value.isFuncNode
        let env1 :=
          if isFn then env
          else
            match findStashed ctx.envStash stashed name with
            | some t => envAssign env name t
            | none => envRemove env name
        let r := infer fuel ctx env1 (level+1) value
        match r.err with
        | some e2 => ⟨some e2, r.env, r.ctx, stashed⟩
        | none =>
          match ctxUnify (.tvar vid) r.ty r.ctx with
          | .error msg => ⟨some msg, r.env, { r.ctx with invalid := some id, err := some msg }, stashed⟩
          | .ok ctx1 =>
            let env2 := if isFn then r.env else envAssign r.env name (.tvar vid)
            inferSCCBindings fuel ctx1 env2 level id vars stashed rest
termination_by structural fuel => fuel

/-- Embeds `inferControlFlow` from `src/infer.go`: bind every local to a
fresh weak reference, validate the graph, infer the components in
dependency order, and fail when no return value was produced. -/
def inferControlFlow : Nat → Ctx → Env → Nat → Nat → List String → List (Nat × List Expr) → List (Nat × Nat) → IRes
  | 0, ctx, env, _, _, _, _, _ => ⟨.nilTy, some "infer: recursion bound exceeded", env, ctx⟩
  | fuel+1, ctx, env, level, id, locals, blocks, jumps =>
    let (ids, st) := newVarList ctx.store level locals.length
    let st := setWeakAll st ids
    let ctx0 := { ctx with store := st }
    let refs := ids.map (fun i => tyRef (.tvar i))
    let (ctx1, env1, cnt) := stashAssignAll ctx0 env (locals.zip refs)
    match validateCF blocks jumps with
    | .error msg => ⟨.nilTy, some msg, env1, { ctx1 with invalid := some id, err := some msg }⟩
    | .ok sccs =>
      let r := inferCFSCCs fuel ctx1 env1 level id locals jumps refs .nilTy sccs
      match r.err with
      | some e2 => ⟨.nilTy, some e2, r.env, r.ctx⟩
      | none =>
        let env2 := removeAll r.env locals
        let (ctx2, env3) := unstash r.ctx env2 cnt
        if r.ty.isNil then
          let msg := "Control flow must reach the return block and return a value"
          ⟨.nilTy, some msg, env3, { ctx2 with invalid := some id, err := some msg }⟩
        else ⟨r.ty, none, env3, ctx2⟩
termination_by structural fuel => fuel

/-- The component loop of `inferControlFlow`: a singleton component that
does not jump to itself is inferred as a straight-line sequence (tracking
the return block's final type); any other component is a cycle. -/
def inferCFSCCs : Nat → Ctx → Env → Nat → Nat → List String → List (Nat × Nat) → List Ty → Ty → List (List (Nat × List Expr)) → IRes
  | 0, ctx, env, _, _, _, _, _, _, _ => ⟨.nilTy, some "infer: recursion bound exceeded", env, ctx⟩
  | fuel+1, ctx, env, level, id, locals, jumps, refs, ret, sccs =>
    match sccs with
    | [] => ⟨ret, none, env, ctx⟩
    | cycle :: rest =>
      match cycle with
      | [b] =>
        if !(hasJump jumps b.1 b.1) then
          let r := inferBlockSeq fuel ctx env level id b.1 b.2 ret
          match r.err with
          | some e2 => ⟨.nilTy, some e2, r.env, r.ctx⟩
          | none => inferCFSCCs fuel r.ctx r.env level id locals jumps refs r.ty rest
        else
          let r := inferCycleSCC fuel ctx env level id locals refs [b]
          match r.err with
          | some e2 => ⟨.nilTy, some e2, r.env, r.ctx⟩
          | none => inferCFSCCs fuel r.ctx r.env level id locals jumps refs ret rest
      | _ =>
        let r := inferCycleSCC fuel ctx env level id locals refs cycle
        match r.err with
        | some e2 => ⟨.nilTy, some e2, r.env, r.ctx⟩
        | none => inferCFSCCs fuel r.ctx r.env level id locals jumps refs ret rest
termination_by structural fuel => fuel

/-- Straight-line inference of a non-cyclic block's sequence; the final
sub-expression of the designated return block becomes the control flow's
return type (and is written to its annotation slot). -/
def inferBlockSeq : Nat → Ctx → Env → Nat → Nat → Nat → List Expr → Ty → IRes
  | 0, ctx, env, _, _, _, _, _ => ⟨.nilTy, some "infer: recursion bound exceeded", env, ctx⟩
  | fuel+1, ctx, env, level, id, blockIndex, seq, ret =>
    match seq with
    | [] => ⟨ret, none, env, ctx⟩
    | [last] =>
      let r := infer fuel ctx env level last
      match r.err with
      | some e2 => ⟨.nilTy, some e2, r.env, r.ctx⟩
      | none =>
        if blockIndex == controlFlowReturnIndex then
          let ctx1 := if r.ctx.annotate then { r.ctx with typeAnnots := (id, r.ty) :: r.ctx.typeAnnots } else r.ctx
          ⟨r.ty, none, r.env, ctx1⟩
        else ⟨ret, none, r.env, r.ctx⟩
    | sub :: more =>
      let r := infer fuel ctx env level sub
      match r.err with
      | some e2 => ⟨.nilTy, some e2, r.env, r.ctx⟩
      | none => inferBlockSeq fuel r.ctx r.env level id blockIndex more ret
termination_by structural fuel => fuel

/-- Cycle inference: re-bind the locals to a second set of fresh weak
references, infer every block of the cycle, unify each original reference
against its temporary, then restore the original references. -/
def inferCycleSCC : Nat → Ctx → Env → Nat → Nat → List String → List Ty → List (Nat × List Expr) → IRes
  | 0, ctx, env, _, _, _, _, _ => ⟨.nilTy, some "infer: recursion bound exceeded", env, ctx⟩
  | fuel+1, ctx, env, level, id, locals, refs, cycle =>
    let (tmpIds, st) := newVarList ctx.store level locals.length
    let st := setWeakAll st tmpIds
    let ctx0 := { ctx with store := st }
    let tmpRefs := tmpIds.map (fun i => tyRef (.tvar i))
    let env1 := assignAll env (locals.zip tmpRefs)
    let r := inferCycleBlocks fuel ctx0 env1 level cycle
    match r.err with
    | some e2 => ⟨.nilTy, some e2, r.env, r.ctx⟩
    | none =>
      match unifyRefPairs fuel id (refs.zip tmpRefs) r.ctx with
      | .error (msg, ctx1) => ⟨.nilTy, some msg, r.env, ctx1⟩
      | .ok ctx1 =>
        let env2 := assignAll r.env (locals.zip refs)
        ⟨.nilTy, none, env2, ctx1⟩
termination_by structural fuel => fuel

/-- Check consistent usage of locals across loop iterations: unify each
original reference against its temporary (a failure records the control
flow expression). -/
def unifyRefPairs : Nat → Nat → List (Ty × Ty) → Ctx → Except (String × Ctx) Ctx
  | 0, _, _, ctx => .error ("infer: recursion bound exceeded", ctx)
  | fuel+1, id, pairs, ctx =>
    match pairs with
    | [] => .ok ctx
    | (a, b) :: rest =>
      match ctxUnify a b ctx with
      | .error msg => .error (msg, { ctx with invalid := some id, err := some msg })
      | .ok ctx1 => unifyRefPairs fuel id rest ctx1
termination_by structural fuel => fuel

/-- Infer every sub-expression of every block in a cycle, discarding the
values. -/
def inferCycleBlocks : Nat → Ctx → Env → Nat → List (Nat × List Expr) → IRes
  | 0, ctx, env, _, _ => ⟨.nilTy, some "infer: recursion bound exceeded", env, ctx⟩
  | fuel+1, ctx, env, level, blocksLeft =>
    match blocksLeft with
    | [] => ⟨.nilTy, none, env, ctx⟩
    | (_, seq) :: rest =>
      let r := inferCycleSeq fuel ctx env level seq
      match r.err with
      | some e2 => ⟨.nilTy, some e2, r.env, r.ctx⟩
      | none => inferCycleBlocks fuel r.ctx r.env level rest
termination_by structural fuel => fuel

/-- Infer a block's sequence inside a cycle, discarding the values. -/
def inferCycleSeq : Nat → Ctx → Env → Nat → List Expr → IRes
  | 0, ctx, env, _, _ => ⟨.nilTy, some "infer: recursion bound exceeded", env, ctx⟩
  | fuel+1, ctx, env, level, seq =>
    match seq with
    | [] => ⟨.nilTy, none, env, ctx⟩
    | sub :: rest =>
      let r := infer fuel ctx env level sub
      match r.err with
      | some e2 => ⟨.nilTy, some e2, r.env, r.ctx⟩
      | none => inferCycleSeq fuel r.ctx r.env level rest
termination_by structural fuel => fuel
end

/-! ## Shared concrete fixtures -/

/-- An empty inference context. -/
def ctx0 : Ctx := { store := [] }

/-- An empty context with annotation mode enabled. -/
def ctxA : Ctx := { store := [], annotate := true }

/-- An environment binding `y` to `int`. -/
def envY : Env := [("y", Ty.const "int")]

/-- Look up an annotation list keyed by node id (newest write first). -/
theorem annotLookup_cons_ne {rest : List (Nat × Ty)} {j i : Nat} {t : Ty} (h : i ≠ j) :
    annotLookup ((j, t) :: rest) i = annotLookup rest i := by
  unfold annotLookup
  rw [List.find?_cons_of_neg]
  simp
  omega

theorem annotLookup_cons_self {rest : List (Nat × Ty)} {i : Nat} {t : Ty} :
    annotLookup ((i, t) :: rest) i = some t := by
  unfold annotLookup
  rw [List.find?_cons_of_pos]
  simp

/-! ## Claim C1 -/

/-- C1 counterexample: in the pipe `y |> (fn (a) -> zz) |> y` (with `y`
bound and `zz` unbound) the first step's inference fails, yet the whole
Pipe inference returns success with type `int`: the walk was not aborted
at the first failure — the remaining step was still inferred and its
success erased the error. -/
theorem C1_counterexample :
    (infer 20 ctx0 envY 0 (.func 3 ["a"] (.varE 4 "zz"))).err = some "Variable zz is not defined" ∧
    (infer 20 ctx0 envY 0 (.pipe 1 "p" (.varE 2 "y") [.func 3 ["a"] (.varE 4 "zz"), .varE 5 "y"])).err = none ∧
    (infer 20 ctx0 envY 0 (.pipe 1 "p" (.varE 2 "y") [.func 3 ["a"] (.varE 4 "zz"), .varE 5 "y"])).ty = .const "int" :=
  ⟨rfl, rfl, rfl⟩

/-- C1 (amended): a failing sub-inference records `(invalid, err)` and
unwinds in the `Var` case, but (i) a `Literal` whose `using` variable is
absent returns the unbound-variable error *without* recording the
`(invalid, err)` slot, and (ii) a failing step in a Pipe sequence does
*not* stop inference of the remaining steps: the step loop ignores any
incoming error, so every remaining step is still inferred and the Pipe's
outcome is the last step's outcome. -/
theorem C1_first_failure_behavior :
    (∀ fuel ctx env level id n, envLookup env n = none →
      infer (fuel+1) ctx env level (.varE id n) =
        ⟨.nilTy, some ("Variable " ++ n ++ " is not defined"), env,
         { ctx with invalid := some id, err := some ("Variable " ++ n ++ " is not defined") }⟩) ∧
    (∀ fuel ctx env level id usingVars construct n, lookupUsing env usingVars = .error n →
      infer (fuel+1) ctx env level (.lit id usingVars construct) =
        ⟨.nilTy, some ("Variable " ++ n ++ " is not defined"), env, ctx⟩) ∧
    (∀ fuel ctx env level asVar step rest t e0,
      inferPipeSteps (fuel+1) ctx env level asVar (step :: rest) t e0 =
      inferPipeSteps (fuel+1) ctx env level asVar (step :: rest) t none) := by
  refine ⟨?_, ?_, ?_⟩
  · intro fuel ctx env level id n h
    simp [infer, h]
  · intro fuel ctx env level id usingVars construct n h
    simp [infer, h]
  · intro fuel ctx env level asVar step rest t e0
    rfl

theorem C1_witness :
    envLookup envY "zz" = none ∧
    lookupUsing envY ["zz"] = .error "zz" ∧
    (infer 8 ctx0 envY 0 (.varE 6 "zz") =
       ⟨.nilTy, some "Variable zz is not defined", envY,
        { ctx0 with invalid := some 6, err := some "Variable zz is not defined" }⟩ ∧
     infer 8 ctx0 envY 0 (.lit 7 ["zz"] (fun _ _ _ => (.unit, none))) =
       ⟨.nilTy, some "Variable zz is not defined", envY, ctx0⟩ ∧
     inferPipeSteps 8 ctx0 envY 0 "p" [.varE 9 "y"] .nilTy (some "boom") =
       inferPipeSteps 8 ctx0 envY 0 "p" [.varE 9 "y"] .nilTy none) :=
  ⟨rfl, rfl,
   C1_first_failure_behavior.1 7 ctx0 envY 0 6 "zz" rfl,
   C1_first_failure_behavior.2.1 7 ctx0 envY 0 7 ["zz"] (fun _ _ _ => (.unit, none)) "zz" rfl,
   C1_first_failure_behavior.2.2 7 ctx0 envY 0 "p" (.varE 9 "y") [] .nilTy (some "boom")⟩

/-! ## Claim C2 -/

theorem ctxInstantiate_typeAnnots (level : Nat) (t : Ty) (ctx : Ctx) :
    (ctxInstantiate level t ctx).2.typeAnnots = ctx.typeAnnots := by
  unfold ctxInstantiate
  rcases he : Typeutil.Instantiate level t ctx.store with ⟨a, b⟩
  simp [he]

theorem ctxUnify_ok_typeAnnots {a b : Ty} {ctx ctx' : Ctx} (h : ctxUnify a b ctx = .ok ctx') :
    ctx'.typeAnnots = ctx.typeAnnots := by
  unfold ctxUnify at h
  cases hu : unify (storeDepthFuel ctx.store + tySize a + tySize b) a b ctx.store with
  | ok st => rw [hu] at h; cases h; rfl
  | error m => rw [hu] at h; cases h

/-- C2 counterexample: with annotation mode enabled, inference of the
variant expression `:A y` succeeds and its sub-expression's slot is
written, but the Variant expression's own annotation slot is never
written — "every sub-expression's inferred type is written into its
slot" fails at the Variant node. -/
theorem C2_counterexample :
    (infer 10 ctxA envY 0 (.variantE 7 "A" (.varE 8 "y"))).err = none ∧
    (infer 10 ctxA envY 0 (.variantE 7 "A" (.varE 8 "y"))).ctx.annotate = true ∧
    annotLookup (infer 10 ctxA envY 0 (.variantE 7 "A" (.varE 8 "y"))).ctx.typeAnnots 8 = some (.const "int") ∧
    annotLookup (infer 10 ctxA envY 0 (.variantE 7 "A" (.varE 8 "y"))).ctx.typeAnnots 7 = none :=
  ⟨rfl, rfl, rfl, rfl⟩

/-- An environment binding `f` to the unbound variable `0` of `c2Store`. -/
def envF : Env := [("f", Ty.tvar 0)]

/-- A context holding one unbound variable, with annotation enabled. -/
def ctxF : Ctx := { store := [{ level := 0 }], annotate := true }

/-- C2 (amended): under annotation mode, slots are written on success in
most cases, except: (i) a `Variant` expression's own slot is never
written; (ii) a `Pipe` with a non-empty sequence is not annotated on
success (an empty-sequence Pipe is); and (iii) a `Call`'s function-type
slot receives the resolved `Arrow` only when the inferred function type
is literally an arrow — when it was an unbound variable that
`matchFuncType` linked to a fresh arrow, a nil function type is recorded
(while the `Call`'s own type slot does receive the fresh return type). -/
theorem C2_annotation_behavior :
    (∀ fuel ctx env level id id' label n t, envLookup env n = some t → id ≠ id' →
      annotLookup (infer (fuel+2) ctx env level (.variantE id label (.varE id' n))).ctx.typeAnnots id =
        annotLookup ctx.typeAnnots id) ∧
    ((infer 10 ctxA envY 0 (.pipe 1 "p" (.varE 2 "y") [.varE 3 "p"])).err = none ∧
     annotLookup (infer 10 ctxA envY 0 (.pipe 1 "p" (.varE 2 "y") [.varE 3 "p"])).ctx.typeAnnots 1 = none ∧
     annotLookup (infer 10 ctxA envY 0 (.pipe 1 "p" (.varE 2 "y") [])).ctx.typeAnnots 1 = some (.const "int")) ∧
    (∀ fuel ctx env level id i v n,
      envLookup env n = some (.tvar v) →
      (storeGet ctx.store v).link = none →
      (storeGet ctx.store v).generic = false →
      ctx.annotate = true →
      (infer (fuel+2) ctx env level (.call id (.varE i n) [])).err = none ∧
      (infer (fuel+2) ctx env level (.call id (.varE i n) [])).ty = .tvar ctx.store.length ∧
      (infer (fuel+2) ctx env level (.call id (.varE i n) [])).ctx.funcAnnots.find?
          (fun p => p.1 == id) = some (id, none) ∧
      annotLookup (infer (fuel+2) ctx env level (.call id (.varE i n) [])).ctx.typeAnnots id =
        some (.tvar ctx.store.length)) := by
  refine ⟨?_, ⟨rfl, rfl, rfl⟩, ?_⟩
  · intro fuel ctx env level id id' label n t henv hne
    simp only [infer, henv]
    split
    all_goals try (rename_i ctx1 heq; rw [ctxUnify_ok_typeAnnots heq])
    all_goals split <;> simp [annotLookup_cons_ne hne, ctxInstantiate_typeAnnots]
  · intro fuel ctx env level id i v n henv hlink hgen hann
    have hng : Ty.isGeneric ctx.store (.tvar v) = false := by
      simp [Ty.isGeneric, hgen]
    have hI : Typeutil.Instantiate level (.tvar v) ctx.store = (.tvar v, ctx.store) := by
      unfold Typeutil.Instantiate
      simp [hng]
    have hmft : matchFuncType (storeDepthFuel ctx.store + tySize (Ty.tvar v)) 0 (.tvar v) ctx.store =
        .ok ([], .tvar ctx.store.length,
          storeSet (ctx.store ++ [{ level := (storeGet ctx.store v).level }]) v
            { storeGet (ctx.store ++ [{ level := (storeGet ctx.store v).level }]) v with
                link := some (.arrow [] (.tvar ctx.store.length)) }) := by
      have hsz : tySize (Ty.tvar v) = 1 := rfl
      rw [hsz]
      simp only [matchFuncType, hlink, hgen]
      simp [newVarList, List.range_succ]
    simp only [infer, henv, ctxInstantiate, hI]
    simp only [hann, if_true]
    simp only [List.length_nil]
    rw [hmft]
    simp [inferCallArgs, annotLookup_cons_self, List.find?]

theorem C2_witness :
    envLookup envY "y" = some (.const "int") ∧ (7 : Nat) ≠ 8 ∧
    envLookup envF "f" = some (.tvar 0) ∧ (storeGet ctxF.store 0).link = none ∧
    (storeGet ctxF.store 0).generic = false ∧ ctxF.annotate = true ∧
    (annotLookup (infer 10 ctxA envY 0 (.variantE 7 "A" (.varE 8 "y"))).ctx.typeAnnots 7 =
       annotLookup ctxA.typeAnnots 7 ∧
     ((infer 10 ctxF envF 0 (.call 5 (.varE 6 "f") [])).err = none ∧
      (infer 10 ctxF envF 0 (.call 5 (.varE 6 "f") [])).ty = .tvar ctxF.store.length ∧
      (infer 10 ctxF envF 0 (.call 5 (.varE 6 "f") [])).ctx.funcAnnots.find?
          (fun p => p.1 == 5) = some (5, none) ∧
      annotLookup (infer 10 ctxF envF 0 (.call 5 (.varE 6 "f") [])).ctx.typeAnnots 5 =
        some (.tvar ctxF.store.length))) :=
  ⟨rfl, by omega, rfl, rfl, rfl, rfl,
   C2_annotation_behavior.1 8 ctxA envY 0 7 8 "A" "y" (.const "int") rfl (by omega),
   C2_annotation_behavior.2.2 8 ctxF envF 0 5 6 0 "f" rfl rfl rfl rfl⟩

/-! ## Claim C7 -/

/-- C7: for `let v = x in body` with a bare variable `x` on the right:
if `x` is absent the inference fails with an unbound-variable error
(recording the Let expression); otherwise `v` is bound to *exactly* the
type term bound to `x` — not instantiated, not generalized, so `v` and
`x` alias the same type node — before the body is inferred, and the Let's
type and error are the body's. -/
theorem C7_let_bare_var (fuel : Nat) (ctx : Ctx) (env : Env) (level id id' : Nat)
    (v x : String) (body : Expr) :
    (envLookup env x = none →
      infer (fuel+1) ctx env level (.letE id v (.varE id' x) body) =
        ⟨.nilTy, some ("Variable " ++ x ++ " is not defined"), env,
         { ctx with invalid := some id, err := some ("Variable " ++ x ++ " is not defined") }⟩) ∧
    (∀ t, envLookup env x = some t →
      ∃ ctx1 cnt, stash ctx env v = (ctx1, cnt) ∧
        (infer (fuel+1) ctx env level (.letE id v (.varE id' x) body)).ty =
          (infer fuel ctx1 (envAssign env v t) level body).ty ∧
        (infer (fuel+1) ctx env level (.letE id v (.varE id' x) body)).err =
          (infer fuel ctx1 (envAssign env v t) level body).err) := by
  constructor
  · intro h
    simp [infer, h]
  · intro t h
    rcases hS : stash ctx env v with ⟨ctx1, cnt⟩
    refine ⟨ctx1, cnt, rfl, ?_, ?_⟩ <;> simp [infer, h, hS]

theorem C7_witness :
    envLookup envY "zz" = none ∧ envLookup envY "y" = some (.const "int") ∧
    (infer 9 ctx0 envY 0 (.letE 1 "v" (.varE 2 "zz") (.varE 3 "v")) =
       ⟨.nilTy, some "Variable zz is not defined", envY,
        { ctx0 with invalid := some 1, err := some "Variable zz is not defined" }⟩) ∧
    (∃ ctx1 cnt, stash ctx0 envY "v" = (ctx1, cnt) ∧
      (infer 9 ctx0 envY 0 (.letE 1 "v" (.varE 2 "y") (.varE 3 "v"))).ty =
        (infer 8 ctx1 (envAssign envY "v" (.const "int")) 0 (.varE 3 "v")).ty ∧
      (infer 9 ctx0 envY 0 (.letE 1 "v" (.varE 2 "y") (.varE 3 "v"))).err =
        (infer 8 ctx1 (envAssign envY "v" (.const "int")) 0 (.varE 3 "v")).err) :=
  ⟨rfl, rfl,
   (C7_let_bare_var 8 ctx0 envY 0 1 2 "v" "zz" (.varE 3 "v")).1 rfl,
   (C7_let_bare_var 8 ctx0 envY 0 1 2 "v" "y" (.varE 3 "v")).2 (.const "int") rfl⟩

/-! ## Claims C10 and C5: matchFuncType -/

theorem storeGet_set_self {s : Store} {i : Nat} (h : i < s.length) (x : VarInfo) :
    storeGet (storeSet s i x) i = x := by
  unfold storeGet storeSet
  rw [List.getD_eq_getElem?_getD, List.getElem?_set_self (by simpa using h)]
  rfl

theorem storeGet_set_ne {s : Store} {i j : Nat} (h : i ≠ j) (x : VarInfo) :
    storeGet (storeSet s i x) j = storeGet s j := by
  unfold storeGet storeSet
  rw [List.getD_eq_getElem?_getD, List.getD_eq_getElem?_getD, List.getElem?_set_ne h]

theorem storeGet_append_right {s l : Store} {k : Nat} (_h : k < l.length) :
    storeGet (s ++ l) (s.length + k) = storeGet l k := by
  unfold storeGet
  have hk : s.length + k - s.length = k := by omega
  rw [List.getD_eq_getElem?_getD, List.getD_eq_getElem?_getD,
    List.getElem?_append_right (by omega : s.length ≤ s.length + k), hk]

/-- Whether a type is an `Arrow` or a `Var` (the two type switches of
`matchFuncType`). -/
def Ty.isArrowOrVar : Ty → Bool
  | .arrow _ _ => true
  | .tvar _ => true
  | _ => false

/-- C10: when a Call's function expression infers to an unbound variable,
`matchFuncType` allocates the fresh arrow's argument and return variables
at the *variable's own* level (`t.Level()`) — it receives no ambient
inference level at all — and links the variable to the arrow; when the
variable is `Generic` (neither linked nor unbound) it fails instead of
creating an arrow. -/
theorem C10_matchFuncType_level (fuel argc v : Nat) (s : Store) :
    ((storeGet s v).link = none → (storeGet s v).generic = false → v < s.length →
      ∃ st, matchFuncType (fuel+1) argc (.tvar v) s =
          .ok ((List.range argc).map (fun k => Ty.tvar (s.length + k)), .tvar (s.length + argc), st) ∧
        (∀ k, k ≤ argc →
          (storeGet st (s.length + k)).level = (storeGet s v).level ∧
          isUnbound st (s.length + k) = true) ∧
        (storeGet st v).link =
          some (.arrow ((List.range argc).map (fun k => Ty.tvar (s.length + k))) (.tvar (s.length + argc)))) ∧
    ((storeGet s v).link = none → (storeGet s v).generic = true →
      matchFuncType (fuel+1) argc (.tvar v) s =
        .error "Type variable for applied function has not been instantiated") := by
  constructor
  · intro hlink hgen hv
    have h1 : (((List.range (argc+1)).map (fun k => s.length + k)).take argc).map Ty.tvar =
        (List.range argc).map (fun k => Ty.tvar (s.length + k)) := by
      rw [← List.map_take, List.take_range]
      simp [Nat.min_def, Function.comp]
    have h2 : ((List.range (argc+1)).map (fun k => s.length + k)).getD argc 0 = s.length + argc := by
      rw [List.getD_eq_getElem?_getD, List.getElem?_map, List.getElem?_range (by omega)]
      rfl
    have hmft : matchFuncType (fuel+1) argc (.tvar v) s =
        .ok ((List.range argc).map (fun k => Ty.tvar (s.length + k)), .tvar (s.length + argc),
          storeSet (s ++ List.replicate (argc+1) ({ level := (storeGet s v).level } : VarInfo)) v
            { storeGet (s ++ List.replicate (argc+1) ({ level := (storeGet s v).level } : VarInfo)) v with
                link := some (.arrow ((List.range argc).map (fun k => Ty.tvar (s.length + k)))
                  (.tvar (s.length + argc))) }) := by
      simp only [matchFuncType, hlink, hgen, Bool.not_false, if_true, newVarList]
      rw [h1, h2]
    refine ⟨_, hmft, ?_, ?_⟩
    · intro k hk
      have hkrep : k < (List.replicate (argc+1) ({ level := (storeGet s v).level } : VarInfo)).length := by
        simp
        omega
      have hne : v ≠ s.length + k := by omega
      have hget : storeGet (List.replicate (argc+1) ({ level := (storeGet s v).level } : VarInfo)) k =
          { level := (storeGet s v).level } := by
        unfold storeGet
        rw [List.getD_eq_getElem?_getD, List.getElem?_replicate]
        simp at hkrep
        simp [hkrep]
      constructor
      · rw [storeGet_set_ne hne, storeGet_append_right hkrep, hget]
      · simp [isUnbound, storeGet_set_ne hne, storeGet_append_right hkrep, hget]
    · have hvlt : v < (s ++ List.replicate (argc+1) ({ level := (storeGet s v).level } : VarInfo)).length := by
        simp
        omega
      rw [storeGet_set_self hvlt]
  · intro hlink hgen
    simp [matchFuncType, hlink, hgen]

/-- A store holding a single unbound variable at level 4. -/
def c10Store : Store := [{ level := 4 }]

theorem C10_witness :
    (storeGet c10Store 0).link = none ∧ (storeGet c10Store 0).generic = false ∧ (0 : Nat) < c10Store.length ∧
    (∃ st, matchFuncType 6 2 (.tvar 0) c10Store =
        .ok ((List.range 2).map (fun k => Ty.tvar (c10Store.length + k)), .tvar (c10Store.length + 2), st) ∧
      (∀ k, k ≤ 2 →
        (storeGet st (c10Store.length + k)).level = (storeGet c10Store 0).level ∧
        isUnbound st (c10Store.length + k) = true) ∧
      (storeGet st 0).link =
        some (.arrow ((List.range 2).map (fun k => Ty.tvar (c10Store.length + k))) (.tvar (c10Store.length + 2)))) :=
  ⟨rfl, rfl, by decide,
   (C10_matchFuncType_level 5 2 0 c10Store).1 rfl rfl (by decide)⟩

/-- C5: the `Call(f, args...)` discipline: an unbound function variable
is linked to a fresh arrow of arity equal to the argument count; an
`Arrow` of the wrong arity fails with an arity error (one of the right
arity is used as is); anything that is neither an `Arrow` nor a `Var`
fails; and on overall success the Call's result is exactly the matched
arrow's return type (each argument having been unified against the
arrow's corresponding parameter in left-to-right order by the zipped
argument loop). -/
theorem C5_call_discipline :
    (∀ fuel argc (args : List Ty) ret s, args.length ≠ argc →
      matchFuncType (fuel+1) argc (.arrow args ret) s =
        .error "Unexpected number of arguments for applied function") ∧
    (∀ fuel argc (args : List Ty) ret s, args.length = argc →
      matchFuncType (fuel+1) argc (.arrow args ret) s = .ok (args, ret, s)) ∧
    (∀ fuel argc v s, v < s.length → (storeGet s v).link = none → (storeGet s v).generic = false →
      ∃ argTys retTy st, matchFuncType (fuel+1) argc (.tvar v) s = .ok (argTys, retTy, st) ∧
        argTys.length = argc ∧
        (storeGet st v).link = some (.arrow argTys retTy)) ∧
    (∀ fuel argc (t : Ty) s, t.isArrowOrVar = false →
      matchFuncType (fuel+1) argc t s =
        .error ("Unexpected type " ++ tyName t ++ " for applied function")) ∧
    (∀ fuel ctx env level id fn args,
      (infer (fuel+1) ctx env level (.call id fn args)).err = none →
      ∃ aas ret st,
        matchFuncType
            (storeDepthFuel (infer fuel ctx env level fn).ctx.store +
              tySize (infer fuel ctx env level fn).ty)
            args.length (infer fuel ctx env level fn).ty (infer fuel ctx env level fn).ctx.store =
          .ok (aas, ret, st) ∧
        (infer (fuel+1) ctx env level (.call id fn args)).ty = ret) := by
  refine ⟨?_, ?_, ?_, ?_, ?_⟩
  · intro fuel argc args ret s h
    simp [matchFuncType, h]
  · intro fuel argc args ret s h
    simp [matchFuncType, h]
  · intro fuel argc v s hv hlink hgen
    have h1 : (((List.range (argc+1)).map (fun k => s.length + k)).take argc).map Ty.tvar =
        (List.range argc).map (fun k => Ty.tvar (s.length + k)) := by
      rw [← List.map_take, List.take_range]
      simp [Nat.min_def, Function.comp]
    have h2 : ((List.range (argc+1)).map (fun k => s.length + k)).getD argc 0 = s.length + argc := by
      rw [List.getD_eq_getElem?_getD, List.getElem?_map, List.getElem?_range (by omega)]
      rfl
    have hmft : matchFuncType (fuel+1) argc (.tvar v) s =
        .ok ((List.range argc).map (fun k => Ty.tvar (s.length + k)), .tvar (s.length + argc),
          storeSet (s ++ List.replicate (argc+1) ({ level := (storeGet s v).level } : VarInfo)) v
            { storeGet (s ++ List.replicate (argc+1) ({ level := (storeGet s v).level } : VarInfo)) v with
                link := some (.arrow ((List.range argc).map (fun k => Ty.tvar (s.length + k)))
                  (.tvar (s.length + argc))) }) := by
      simp only [matchFuncType, hlink, hgen, Bool.not_false, if_true, newVarList]
      rw [h1, h2]
    refine ⟨_, _, _, hmft, by simp, ?_⟩
    have hvlt : v < (s ++ List.replicate (argc+1) ({ level := (storeGet s v).level } : VarInfo)).length := by
      simp
      omega
    rw [storeGet_set_self hvlt]
  · intro fuel argc t s h
    cases t <;> simp_all [Ty.isArrowOrVar, matchFuncType, tyName]
  · intro fuel ctx env level id fn args herr
    simp only [infer] at herr ⊢
    split at herr
    next e2 heq1 => simp at herr
    next heq1 =>
      split at herr
      next msg heq2 => simp at herr
      next arrowArgs arrowRet st2 heq2 =>
        split at herr
        next e2 heq3 => simp at herr
        next heq3 =>
          refine ⟨arrowArgs, arrowRet, st2, heq2, ?_⟩
          rfl

/-- An environment binding `f` to a nullary arrow returning `int`. -/
def c5Env : Env := [("f", Ty.arrow [] (Ty.const "int"))]

theorem C5_witness :
    (([] : List Ty).length ≠ 1 ∧
      matchFuncType 1 1 (.arrow [] .unit) [] = .error "Unexpected number of arguments for applied function") ∧
    (([] : List Ty).length = 0 ∧ matchFuncType 1 0 (.arrow [] .unit) [] = .ok ([], .unit, [])) ∧
    ((0 : Nat) < ([{ level := 2 }] : Store).length ∧ (storeGet [{ level := 2 }] 0).link = none ∧
      (storeGet [{ level := 2 }] 0).generic = false ∧
      ∃ argTys retTy st, matchFuncType 1 1 (.tvar 0) [{ level := 2 }] = .ok (argTys, retTy, st) ∧
        argTys.length = 1 ∧ (storeGet st 0).link = some (.arrow argTys retTy)) ∧
    (Ty.isArrowOrVar (.const "int") = false ∧
      matchFuncType 1 0 (.const "int") [] =
        .error ("Unexpected type " ++ tyName (.const "int") ++ " for applied function")) ∧
    ((infer 10 ctx0 c5Env 0 (.call 9 (.varE 1 "f") [])).err = none ∧
      ∃ aas ret st,
        matchFuncType
            (storeDepthFuel (infer 9 ctx0 c5Env 0 (.varE 1 "f")).ctx.store +
              tySize (infer 9 ctx0 c5Env 0 (.varE 1 "f")).ty)
            (List.length ([] : List Expr))
            (infer 9 ctx0 c5Env 0 (.varE 1 "f")).ty (infer 9 ctx0 c5Env 0 (.varE 1 "f")).ctx.store =
          .ok (aas, ret, st) ∧
        (infer 10 ctx0 c5Env 0 (.call 9 (.varE 1 "f") [])).ty = ret) :=
  ⟨⟨by decide, C5_call_discipline.1 0 1 [] .unit [] (by decide)⟩,
   ⟨rfl, C5_call_discipline.2.1 0 0 [] .unit [] rfl⟩,
   ⟨by decide, rfl, rfl, C5_call_discipline.2.2.1 0 1 0 [{ level := 2 }] (by decide) rfl rfl⟩,
   ⟨rfl, C5_call_discipline.2.2.2.1 0 0 (.const "int") [] rfl⟩,
   ⟨rfl, C5_call_discipline.2.2.2.2 9 ctx0 c5Env 0 9 (.varE 1 "f") [] rfl⟩⟩

/-! ## Claim C6 -/

/-- The tail type of a chain of row extensions. -/
def rowTailOf : Ty → Ty
  | .rowExtend row _ => rowTailOf row
  | t => t

/-- The labels of a chain of row extensions, innermost first. -/
def rowLabelsOf : Ty → List String
  | .rowExtend row labels => rowLabelsOf row ++ labels.map (fun p => p.1)
  | _ => []

theorem rowTailOf_foldl (pairs : List ((String × String × Expr) × Ty)) :
    ∀ rowType, rowTailOf (pairs.foldl (fun row p => Ty.rowExtend row [(p.1.1, [p.2])]) rowType) =
      rowTailOf rowType := by
  induction pairs with
  | nil => intro r; rfl
  | cons p ps ih =>
    intro r
    rw [List.foldl_cons, ih]
    rfl

theorem rowLabelsOf_foldl (pairs : List ((String × String × Expr) × Ty)) :
    ∀ rowType, rowLabelsOf (pairs.foldl (fun row p => Ty.rowExtend row [(p.1.1, [p.2])]) rowType) =
      rowLabelsOf rowType ++ pairs.map (fun p => p.1.1) := by
  induction pairs with
  | nil => intro r; simp
  | cons p ps ih =>
    intro r
    rw [List.foldl_cons, ih]
    simp [rowLabelsOf]

theorem inferCasesLoop_ty (fuel : Nat) :
    ∀ ctx env level retType rowType pairs,
      (inferCasesLoop fuel ctx env level retType rowType pairs).err = none →
      (inferCasesLoop fuel ctx env level retType rowType pairs).ty =
        pairs.foldl (fun row p => Ty.rowExtend row [(p.1.1, [p.2])]) rowType := by
  induction fuel with
  | zero =>
    intro ctx env level retType rowType pairs h
    simp [inferCasesLoop] at h
  | succ n ih =>
    intro ctx env level retType rowType pairs h
    match pairs with
    | [] => rfl
    | ((lab, v, body), vt) :: rest =>
      simp only [inferCasesLoop] at h ⊢
      split at h
      · simp at h
      · split at h
        · simp at h
        · rw [List.foldl_cons]
          exact ih _ _ _ _ _ _ h

theorem inferCases_eq (fuel : Nat) (ctx : Ctx) (env : Env) (level : Nat) (retType rowType : Ty)
    (cases : List (String × String × Expr)) :
    inferCases (fuel+1) ctx env level retType rowType cases =
      inferCasesLoop fuel
        { ctx with store := ctx.store ++ List.replicate cases.length { level := level } }
        env level retType rowType
        (cases.reverse.zip (((List.range cases.length).map (fun k => ctx.store.length + k)).map Ty.tvar)) :=
  rfl

/-- C6: the `Match` discipline: the reversed case loop extends the
accumulated row by `{label: [variantType]}` per case (each case body
having been unified against the shared return type), so with no default
the accumulated row's tail is `RowEmpty` and its labels are exactly the
case labels; `inferMatchRest` unifies the matched value's type with
`Variant{accumulatedRow}` and returns the shared return type; the
no-default driver case allocates a fresh return variable and a closed
row, and the default driver case binds the default variable to
`Variant{rowType}` for a fresh `rowType` and uses the default body's
type as the shared return type. -/
theorem C6_match_discipline :
    (∀ fuel ctx env level retType rowType pairs,
      (inferCasesLoop fuel ctx env level retType rowType pairs).err = none →
      (inferCasesLoop fuel ctx env level retType rowType pairs).ty =
        pairs.foldl (fun row p => Ty.rowExtend row [(p.1.1, [p.2])]) rowType) ∧
    (∀ fuel ctx env level retType cs,
      (inferCases (fuel+1) ctx env level retType .rowEmpty cs).err = none →
      rowTailOf (inferCases (fuel+1) ctx env level retType .rowEmpty cs).ty = .rowEmpty ∧
      rowLabelsOf (inferCases (fuel+1) ctx env level retType .rowEmpty cs).ty =
        cs.reverse.map (fun c => c.1)) ∧
    (∀ fuel ctx env level id value cs retType rowType,
      (inferMatchRest (fuel+1) ctx env level id value cs retType rowType).err = none →
      (inferMatchRest (fuel+1) ctx env level id value cs retType rowType).ty = retType ∧
      ∃ ctx1, ctxUnify (infer fuel ctx env level value).ty
          (.variant (inferCases fuel (infer fuel ctx env level value).ctx
              (infer fuel ctx env level value).env level retType rowType cs).ty)
          (inferCases fuel (infer fuel ctx env level value).ctx
              (infer fuel ctx env level value).env level retType rowType cs).ctx = .ok ctx1) ∧
    (∀ fuel ctx env level id value cs,
      infer (fuel+1) ctx env level (.matchE id value cs none) =
        inferMatchRest fuel { ctx with store := ctx.store ++ [{ level := level }] } env level id
          value cs (.tvar ctx.store.length) .rowEmpty) ∧
    (∀ fuel ctx env level id value cs dv dval,
      (infer fuel (stash { ctx with store := ctx.store ++ [{ level := level }] } env dv).1
          (envAssign env dv (.variant (.tvar ctx.store.length))) level dval).err = none →
      infer (fuel+1) ctx env level (.matchE id value cs (some (dv, dval))) =
        inferMatchRest fuel
          (unstash (infer fuel (stash { ctx with store := ctx.store ++ [{ level := level }] } env dv).1
              (envAssign env dv (.variant (.tvar ctx.store.length))) level dval).ctx
            (envRemove (infer fuel
                (stash { ctx with store := ctx.store ++ [{ level := level }] } env dv).1
                (envAssign env dv (.variant (.tvar ctx.store.length))) level dval).env dv)
            (stash { ctx with store := ctx.store ++ [{ level := level }] } env dv).2).1
          (unstash (infer fuel (stash { ctx with store := ctx.store ++ [{ level := level }] } env dv).1
              (envAssign env dv (.variant (.tvar ctx.store.length))) level dval).ctx
            (envRemove (infer fuel
                (stash { ctx with store := ctx.store ++ [{ level := level }] } env dv).1
                (envAssign env dv (.variant (.tvar ctx.store.length))) level dval).env dv)
            (stash { ctx with store := ctx.store ++ [{ level := level }] } env dv).2).2
          level id value cs
          (infer fuel (stash { ctx with store := ctx.store ++ [{ level := level }] } env dv).1
              (envAssign env dv (.variant (.tvar ctx.store.length))) level dval).ty
          (.tvar ctx.store.length)) := by
  refine ⟨inferCasesLoop_ty, ?_, ?_, ?_, ?_⟩
  · intro fuel ctx env level retType cs h
    rw [inferCases_eq] at h ⊢
    rw [inferCasesLoop_ty _ _ _ _ _ _ _ h]
    constructor
    · rw [rowTailOf_foldl]
      rfl
    · rw [rowLabelsOf_foldl]
      have hlen : cs.reverse.length ≤
          (((List.range cs.length).map (fun k => ctx.store.length + k)).map Ty.tvar).length := by
        simp
      have hfst : (cs.reverse.zip
            (((List.range cs.length).map (fun k => ctx.store.length + k)).map Ty.tvar)).map
            Prod.fst = cs.reverse := List.map_fst_zip _ _ hlen
      calc rowLabelsOf Ty.rowEmpty ++ (cs.reverse.zip
            (((List.range cs.length).map (fun k => ctx.store.length + k)).map Ty.tvar)).map
            (fun p => p.1.1)
          = ((cs.reverse.zip
              (((List.range cs.length).map (fun k => ctx.store.length + k)).map Ty.tvar)).map
              Prod.fst).map (fun c => c.1) := by
            simp [rowLabelsOf, List.map_map, Function.comp]
        _ = cs.reverse.map (fun c => c.1) := by rw [hfst]
  · intro fuel ctx env level id value cs retType rowType h
    simp only [inferMatchRest] at h ⊢
    split at h
    · simp at h
    · split at h
      · simp at h
      · split at h
        · simp at h
        · rename_i ctx1 heq
          exact ⟨rfl, ⟨ctx1, heq⟩⟩
  · intro fuel ctx env level id value cs
    rfl
  · intro fuel ctx env level id value cs dv dval h
    simp only [infer]
    split
    · rename_i e2 heq
      exact Option.noConfusion (h.symm.trans heq)
    · rfl

/-- A store holding one unbound variable, for the match fixture. -/
def c6Ctx : Ctx := { store := [{ level := 0 }] }

/-- An environment binding the matched value `v` to that variable. -/
def c6Env : Env := [("v", Ty.tvar 0)]

theorem C6_witness :
    ((inferCasesLoop 5 ctx0 [] 0 .unit .rowEmpty [(("A", "x", Expr.varE 3 "x"), Ty.unit)]).err =
        none ∧
      (inferCasesLoop 5 ctx0 [] 0 .unit .rowEmpty [(("A", "x", Expr.varE 3 "x"), Ty.unit)]).ty =
        [(("A", "x", Expr.varE 3 "x"), Ty.unit)].foldl
          (fun row p => Ty.rowExtend row [(p.1.1, [p.2])]) .rowEmpty) ∧
    ((inferCases 10 ctx0 [] 0 .unit .rowEmpty [("A", "x", Expr.varE 3 "x")]).err = none ∧
      rowTailOf (inferCases 10 ctx0 [] 0 .unit .rowEmpty [("A", "x", Expr.varE 3 "x")]).ty =
        .rowEmpty ∧
      rowLabelsOf (inferCases 10 ctx0 [] 0 .unit .rowEmpty [("A", "x", Expr.varE 3 "x")]).ty =
        [("A", "x", Expr.varE 3 "x")].reverse.map (fun c => c.1)) ∧
    ((inferMatchRest 10 c6Ctx c6Env 0 9 (.varE 1 "v") [("A", "x", Expr.varE 3 "x")] .unit
          .rowEmpty).err = none ∧
      (inferMatchRest 10 c6Ctx c6Env 0 9 (.varE 1 "v") [("A", "x", Expr.varE 3 "x")] .unit
          .rowEmpty).ty = .unit ∧
      ∃ ctx1, ctxUnify (infer 9 c6Ctx c6Env 0 (.varE 1 "v")).ty
          (.variant (inferCases 9 (infer 9 c6Ctx c6Env 0 (.varE 1 "v")).ctx
              (infer 9 c6Ctx c6Env 0 (.varE 1 "v")).env 0 .unit .rowEmpty
              [("A", "x", Expr.varE 3 "x")]).ty)
          (inferCases 9 (infer 9 c6Ctx c6Env 0 (.varE 1 "v")).ctx
              (infer 9 c6Ctx c6Env 0 (.varE 1 "v")).env 0 .unit .rowEmpty
              [("A", "x", Expr.varE 3 "x")]).ctx = .ok ctx1) :=
  ⟨⟨rfl, C6_match_discipline.1 5 ctx0 [] 0 .unit .rowEmpty
      [(("A", "x", Expr.varE 3 "x"), Ty.unit)] rfl⟩,
   ⟨rfl, C6_match_discipline.2.1 9 ctx0 [] 0 .unit [("A", "x", Expr.varE 3 "x")] rfl⟩,
   ⟨rfl,
    (C6_match_discipline.2.2.1 9 c6Ctx c6Env 0 9 (.varE 1 "v") [("A", "x", Expr.varE 3 "x")]
        .unit .rowEmpty rfl).1,
    (C6_match_discipline.2.2.1 9 c6Ctx c6Env 0 9 (.varE 1 "v") [("A", "x", Expr.varE 3 "x")]
        .unit .rowEmpty rfl).2⟩⟩

/-! ## Claim C9 -/

theorem inferBlockSeq_ty (fuel : Nat) :
    ∀ ctx env level id bi seq ret,
      (inferBlockSeq fuel ctx env level id bi seq ret).err = none →
      (inferBlockSeq fuel ctx env level id bi seq ret).ty = ret ∨
      (bi = controlFlowReturnIndex ∧ ∃ f c e last, seq.getLast? = some last ∧
        (infer f c e level last).err = none ∧
        (inferBlockSeq fuel ctx env level id bi seq ret).ty = (infer f c e level last).ty) := by
  induction fuel with
  | zero =>
    intro ctx env level id bi seq ret h
    simp [inferBlockSeq] at h
  | succ n ih =>
    intro ctx env level id bi seq ret h
    match seq with
    | [] => exact Or.inl rfl
    | [last] =>
      simp only [inferBlockSeq] at h ⊢
      split at h
      · simp at h
      · rename_i herr2
        split at h
        · rename_i hbi
          rw [if_pos hbi]
          refine Or.inr ⟨by simpa using hbi, n, ctx, env, last, rfl, herr2, ?_⟩
          split <;> rfl
        · rename_i hbi
          rw [if_neg hbi]
          exact Or.inl rfl
    | sub :: snd :: more =>
      simp only [inferBlockSeq] at h ⊢
      split at h
      · simp at h
      · rcases ih _ _ _ _ _ _ _ h with hty | ⟨hbi, f, c, e, last, hlast, herr2, hty⟩
        · exact Or.inl hty
        · exact Or.inr ⟨hbi, f, c, e, last, by rw [List.getLast?_cons_cons]; exact hlast,
            herr2, hty⟩

theorem inferCFSCCs_ty (fuel : Nat) :
    ∀ ctx env level id locals jumps refs ret sccs,
      (inferCFSCCs fuel ctx env level id locals jumps refs ret sccs).err = none →
      (inferCFSCCs fuel ctx env level id locals jumps refs ret sccs).ty = ret ∨
      (∃ f c e bseq last cyc, cyc ∈ sccs ∧ (controlFlowReturnIndex, bseq) ∈ cyc ∧
        bseq.getLast? = some last ∧ (infer f c e level last).err = none ∧
        (inferCFSCCs fuel ctx env level id locals jumps refs ret sccs).ty =
          (infer f c e level last).ty) := by
  induction fuel with
  | zero =>
    intro ctx env level id locals jumps refs ret sccs h
    simp [inferCFSCCs] at h
  | succ n ih =>
    intro ctx env level id locals jumps refs ret sccs h
    match sccs with
    | [] => exact Or.inl rfl
    | cycle :: rest =>
      match cycle with
      | [b] =>
        obtain ⟨b1, b2⟩ := b
        simp only [inferCFSCCs] at h ⊢
        split at h
        · rename_i hj
          rw [if_pos hj]
          split at h
          · simp at h
          · rename_i hbs
            rcases ih _ _ _ _ _ _ _ _ _ h with hty | ⟨f, c, e, bseq, last, cyc, hmem, hbmem, hlast, herr2, hty⟩
            · rcases inferBlockSeq_ty n ctx env level id b1 b2 ret hbs with hl |
                ⟨hbi, f, c, e, last, hlast, herr2, htyb⟩
              · exact Or.inl (hty.trans hl)
              · refine Or.inr ⟨f, c, e, b2, last, [(b1, b2)], List.mem_cons_self _ _, ?_,
                  hlast, herr2, hty.trans htyb⟩
                rw [hbi]
                exact List.mem_singleton.mpr rfl
            · exact Or.inr ⟨f, c, e, bseq, last, cyc, List.mem_cons_of_mem _ hmem, hbmem,
                hlast, herr2, hty⟩
        · rename_i hj
          rw [if_neg hj]
          split at h
          · simp at h
          · rcases ih _ _ _ _ _ _ _ _ _ h with hty | ⟨f, c, e, bseq, last, cyc, hmem, hbmem, hlast, herr2, hty⟩
            · exact Or.inl hty
            · exact Or.inr ⟨f, c, e, bseq, last, cyc, List.mem_cons_of_mem _ hmem, hbmem,
                hlast, herr2, hty⟩
      | [] =>
        simp only [inferCFSCCs] at h ⊢
        split at h
        · simp at h
        · rcases ih _ _ _ _ _ _ _ _ _ h with hty | ⟨f, c, e, bseq, last, cyc, hmem, hbmem, hlast, herr2, hty⟩
          · exact Or.inl hty
          · exact Or.inr ⟨f, c, e, bseq, last, cyc, List.mem_cons_of_mem _ hmem, hbmem,
              hlast, herr2, hty⟩
      | b :: b2 :: bs =>
        simp only [inferCFSCCs] at h ⊢
        split at h
        · simp at h
        · rcases ih _ _ _ _ _ _ _ _ _ h with hty | ⟨f, c, e, bseq, last, cyc, hmem, hbmem, hlast, herr2, hty⟩
          · exact Or.inl hty
          · exact Or.inr ⟨f, c, e, bseq, last, cyc, List.mem_cons_of_mem _ hmem, hbmem,
              hlast, herr2, hty⟩

/-- C9: the `ControlFlow` discipline: when some block cannot reach the
designated return block the graph fails validation, and inference stops
with the control-flow validation error recording the expression as
invalid; on success the expression's result type is the type inferred
for the final sub-expression of the designated return block (threaded
through the dependency-ordered component walk), and success always
carries a real return type — a control flow that produced no value (nil
return type) is rejected with the no-value error instead. -/
theorem C9_controlFlow_result :
    (∀ fuel ctx env level id locals blocks jumps,
      blocks.all (fun b => reaches jumps (blocks.length + 1) b.1 controlFlowReturnIndex) = false →
      (inferControlFlow (fuel+1) ctx env level id locals blocks jumps).err =
        some "all blocks within a control flow graph must reach the return block" ∧
      (inferControlFlow (fuel+1) ctx env level id locals blocks jumps).ctx.invalid = some id) ∧
    (∀ fuel ctx env level id locals blocks jumps,
      (inferControlFlow (fuel+1) ctx env level id locals blocks jumps).err = none →
      ∃ f c e bseq last cyc sccs, validateCF blocks jumps = .ok sccs ∧ cyc ∈ sccs ∧
        (controlFlowReturnIndex, bseq) ∈ cyc ∧ bseq.getLast? = some last ∧
        (infer f c e level last).err = none ∧
        (inferControlFlow (fuel+1) ctx env level id locals blocks jumps).ty =
          (infer f c e level last).ty) ∧
    (∀ fuel ctx env level id locals blocks jumps,
      (inferControlFlow (fuel+1) ctx env level id locals blocks jumps).err = none →
      ((inferControlFlow (fuel+1) ctx env level id locals blocks jumps).ty).isNil = false) := by
  refine ⟨?_, ?_, ?_⟩
  · intro fuel ctx env level id locals blocks jumps h
    simp only [inferControlFlow, newVarList]
    split
    · rename_i sa hsa
      simp only [validateCF, h, Bool.false_eq_true, if_false] at hsa
      injection hsa with hmsg
      subst hmsg
      exact ⟨rfl, rfl⟩
    · rename_i sccs hv
      simp [validateCF, h] at hv
  · intro fuel ctx env level id locals blocks jumps h
    simp only [inferControlFlow, newVarList] at h ⊢
    split at h
    · simp at h
    · rename_i sccs hv
      split at h
      · simp at h
      · rename_i hs
        split at h
        · simp at h
        · rename_i hnil
          rw [if_neg hnil]
          rcases inferCFSCCs_ty fuel _ _ level id locals jumps _ _ sccs hs with hty |
            ⟨f, c, e, bseq, last, cyc, hmem, hbmem, hlast, herr2, hty⟩
          · exfalso
            rw [hty] at hnil
            simp [Ty.isNil] at hnil
          · exact ⟨f, c, e, bseq, last, cyc, sccs, hv, hmem, hbmem, hlast, herr2, hty⟩
  · intro fuel ctx env level id locals blocks jumps h
    simp only [inferControlFlow, newVarList] at h ⊢
    split at h
    · simp at h
    · rename_i sccs hv
      split at h
      · simp at h
      · rename_i hs
        split at h
        · simp at h
        · rename_i hnil
          rw [if_neg hnil]
          simpa using hnil

/-- A two-block control-flow body: entry block `0` is empty and the
return block `1` evaluates `y`. -/
def cfBlocks : List (Nat × List Expr) := [(0, []), (1, [Expr.varE 2 "y"])]

/-- The jump from the entry block to the return block. -/
def cfJumps : List (Nat × Nat) := [(0, 1)]

theorem C9_witness :
    ((inferControlFlow 10 ctx0 envY 0 7 [] cfBlocks []).err =
        some "all blocks within a control flow graph must reach the return block" ∧
      (inferControlFlow 10 ctx0 envY 0 7 [] cfBlocks []).ctx.invalid = some 7) ∧
    ((inferControlFlow 10 ctx0 envY 0 7 [] cfBlocks cfJumps).err = none ∧
      ∃ f c e bseq last cyc sccs, validateCF cfBlocks cfJumps = .ok sccs ∧ cyc ∈ sccs ∧
        (controlFlowReturnIndex, bseq) ∈ cyc ∧ bseq.getLast? = some last ∧
        (infer f c e 0 last).err = none ∧
        (inferControlFlow 10 ctx0 envY 0 7 [] cfBlocks cfJumps).ty = (infer f c e 0 last).ty) ∧
    ((inferControlFlow 10 ctx0 envY 0 7 [] cfBlocks cfJumps).ty.isNil = false) :=
  ⟨C9_controlFlow_result.1 9 ctx0 envY 0 7 [] cfBlocks [] (by decide),
   ⟨rfl, C9_controlFlow_result.2.1 9 ctx0 envY 0 7 [] cfBlocks cfJumps rfl⟩,
   C9_controlFlow_result.2.2 9 ctx0 envY 0 7 [] cfBlocks cfJumps rfl⟩

/-! ## Claim C8 -/

theorem find_envRemove (env : Env) (n m : String) :
    (envRemove env n).find? (fun p => p.1 == m) =
      if m = n then none else env.find? (fun p => p.1 == m) := by
  induction env with
  | nil => simp [envRemove]
  | cons p rest ih =>
    simp only [envRemove, List.filter_cons] at ih ⊢
    by_cases hpn : p.1 = n
    · by_cases hmn : m = n
      · simpa [hpn, hmn] using ih
      · have hnm : ¬(n = m) := fun hc => hmn hc.symm
        simpa [hpn, hmn, hnm, List.find?_cons] using ih
    · by_cases hpm : p.1 = m
      · have hmn : ¬(m = n) := fun hc => hpn (by rw [hpm, hc])
        simp [hpn, hmn, List.find?_cons, hpm]
      · by_cases hmn : m = n
        · simpa [hpn, hmn, List.find?_cons, hpm] using ih
        · simpa [hpn, hmn, List.find?_cons, hpm] using ih

theorem envLookup_remove (env : Env) (n m : String) :
    envLookup (envRemove env n) m = if m = n then none else envLookup env m := by
  unfold envLookup
  rw [find_envRemove]
  by_cases hmn : m = n
  · simp [hmn]
  · simp [hmn]

theorem envLookup_assign (env : Env) (n m : String) (t : Ty) :
    envLookup (envAssign env n t) m =
      if m = n then (if t.isNil then none else some t) else envLookup env m := by
  unfold envAssign envLookup
  by_cases hmn : m = n
  · simp [List.find?_cons, hmn]
  · have hnm : ¬(n = m) := fun hc => hmn hc.symm
    have hbeq : (n == m) = false := by simpa using hnm
    simp only [List.find?_cons, hbeq, if_neg hmn]
    rw [find_envRemove]
    simp [hmn]

theorem envLookup_some_isNil (env : Env) (n : String) (t : Ty)
    (h : envLookup env n = some t) : t.isNil = false := by
  unfold envLookup at h
  split at h
  · exact absurd h (by simp)
  · split at h
    · exact absurd h (by simp)
    · rename_i hnil
      injection h with h2
      rw [h2] at hnil
      simpa using hnil

/-- C8 counterexample: the claimed strict balance fails on error paths.
A `Let` whose function value fails to infer (its body references the
undefined `zz`) returns with the let-variable `x` still bound in the
environment, although `x` was unbound before the call. -/
theorem C8_counterexample :
    envLookup ([] : Env) "x" = none ∧
    (infer 10 ctx0 [] 0 (.letE 1 "x" (.func 2 ["a"] (.varE 3 "zz")) (.varE 4 "x"))).err =
      some "Variable zz is not defined" ∧
    envLookup (infer 10 ctx0 [] 0
        (.letE 1 "x" (.func 2 ["a"] (.varE 3 "zz")) (.varE 4 "x"))).env "x" =
      some (.tvar 0) :=
  ⟨rfl, rfl, rfl⟩

/-- C8 (amended): environment balance is the property of the
Stash/Assign/Remove/Unstash bracket, not of every return path.  Whenever
the bracketed middle preserves lookups and the stash, running the
closing half (Remove then Unstash with the stashed count) restores every
name's lookup to its value before the bracket; the `Let`-of-variable
case of `infer` is exactly such a bracket around the body's inference.
(Error paths return without running the closing half, see the
counterexample.) -/
theorem C8_env_balance :
    (∀ (ctx : Ctx) (env : Env) (v : String) (t : Ty) (renv : Env) (rctx : Ctx),
      (∀ m, envLookup renv m = envLookup (envAssign env v t) m) →
      rctx.envStash = (stash ctx env v).1.envStash →
      ∀ m, envLookup (unstash rctx (envRemove renv v) (stash ctx env v).2).2 m =
        envLookup env m) ∧
    (∀ fuel ctx env level id v nid x body t, envLookup env x = some t →
      infer (fuel+1) ctx env level (.letE id v (.varE nid x) body) =
        ⟨(infer fuel (stash ctx env v).1 (envAssign env v t) level body).ty,
         (infer fuel (stash ctx env v).1 (envAssign env v t) level body).err,
         (unstash (infer fuel (stash ctx env v).1 (envAssign env v t) level body).ctx
            (envRemove (infer fuel (stash ctx env v).1 (envAssign env v t) level body).env v)
            (stash ctx env v).2).2,
         (unstash (infer fuel (stash ctx env v).1 (envAssign env v t) level body).ctx
            (envRemove (infer fuel (stash ctx env v).1 (envAssign env v t) level body).env v)
            (stash ctx env v).2).1⟩) := by
  constructor
  · intro ctx env v t renv rctx hlook hstash m
    cases heq : envLookup env v with
    | none =>
      have hs : stash ctx env v = (ctx, 0) := by simp [stash, heq]
      rw [hs]
      show envLookup (envRemove renv v) m = envLookup env m
      rw [envLookup_remove]
      by_cases hmv : m = v
      · rw [if_pos hmv, hmv, heq]
      · rw [if_neg hmv, hlook, envLookup_assign, if_neg hmv]
    | some t0 =>
      have hs2 : (stash ctx env v).2 = 1 := by simp [stash, heq]
      have hs1 : (stash ctx env v).1.envStash = (v, t0) :: ctx.envStash := by
        simp [stash, heq]
      rw [hs2]
      have hre : rctx.envStash = (v, t0) :: ctx.envStash := by rw [hstash, hs1]
      simp only [unstash, hre]
      rw [envLookup_assign]
      by_cases hmv : m = v
      · rw [if_pos hmv]
        have hnil : t0.isNil = false := envLookup_some_isNil env v t0 heq
        rw [hnil]
        simp only [Bool.false_eq_true, if_false]
        rw [hmv, heq]
      · rw [if_neg hmv, envLookup_remove, if_neg hmv, hlook, envLookup_assign, if_neg hmv]
  · intro fuel ctx env level id v nid x body t h
    simp only [infer]
    split
    · rename_i heq
      exact absurd (h.symm.trans heq) (by simp)
    · rename_i t2 heq
      have h2 : t = t2 := by injection h.symm.trans heq
      subst h2
      rfl

theorem C8_witness :
    (envLookup (unstash (stash ctx0 envY "y").1
        (envRemove (envAssign envY "y" .unit) "y") (stash ctx0 envY "y").2).2 "y" =
      envLookup envY "y") ∧
    (envLookup envY "y" = some (.const "int") ∧
      infer 10 ctx0 envY 0 (.letE 1 "w" (.varE 4 "y") (.varE 5 "w")) =
        ⟨(infer 9 (stash ctx0 envY "w").1 (envAssign envY "w" (.const "int")) 0 (.varE 5 "w")).ty,
         (infer 9 (stash ctx0 envY "w").1 (envAssign envY "w" (.const "int")) 0 (.varE 5 "w")).err,
         (unstash (infer 9 (stash ctx0 envY "w").1
              (envAssign envY "w" (.const "int")) 0 (.varE 5 "w")).ctx
            (envRemove (infer 9 (stash ctx0 envY "w").1
                (envAssign envY "w" (.const "int")) 0 (.varE 5 "w")).env "w")
            (stash ctx0 envY "w").2).2,
         (unstash (infer 9 (stash ctx0 envY "w").1
              (envAssign envY "w" (.const "int")) 0 (.varE 5 "w")).ctx
            (envRemove (infer 9 (stash ctx0 envY "w").1
                (envAssign envY "w" (.const "int")) 0 (.varE 5 "w")).env "w")
            (stash ctx0 envY "w").2).1⟩) :=
  ⟨C8_env_balance.1 ctx0 envY "y" .unit (envAssign envY "y" .unit)
      (stash ctx0 envY "y").1 (fun _ => rfl) rfl "y",
   rfl,
   C8_env_balance.2 9 ctx0 envY 0 1 "w" 4 "y" (.varE 5 "w") (.const "int") rfl⟩
